import Mathlib

/-!
Shallow embedding of the omacademy-schedule-backend ingestion engine.

Sources embedded here:
- src/src/scraper.js        (cleanText, parseRuDate, parseDayCellHtml, mapLimit,
                             makeSyntheticGroupCode, group/teacher page row parsing)
- src/src/reminderService.js (teacherMatchKey, processUserReminder candidate loop)
- src/src/max/botService.js  (teacherMatchKey duplicate, getActiveTeachers dedup)
- src/src/syncService.js     (shiftIsoDate, cleanupOldLessons, run, buildTeachersSnapshot)
- src/src/config.js          (ScheduleRepository: saveSnapshot, getActiveLessons,
                             deleteActiveLessonsOlderThan, registerReminderSend)

JavaScript strings are modelled as List Char (one Char per code point; every
string handled by this program lies in the Basic Multilingual Plane, where JS
UTF-16 code units coincide with code points), wrapped into String at the API
boundary.
-/
/-- Whitespace class of the JavaScript regex `\s`, restricted to the characters
that can occur in this program's inputs (ASCII whitespace and NBSP). -/
def isJsSpace (c : Char) : Bool :=
  c = ' ' || c = '\t' || c = '\n' || c = '\r' || c.toNat = 11 || c.toNat = 12 || c.toNat = 160

/-- JavaScript `String.prototype.toLowerCase` restricted to the Latin and basic
Cyrillic ranges used by this program; all other characters are left unchanged,
as JS does for them. -/
def jsLower (c : Char) : Char :=
  if 65 ≤ c.toNat ∧ c.toNat ≤ 90 then Char.ofNat (c.toNat + 32)
  else if 1040 ≤ c.toNat ∧ c.toNat ≤ 1071 then Char.ofNat (c.toNat + 32)
  else if c.toNat = 1025 then Char.ofNat 1105
  else c

/-- Model of the JS call replace(/\s+/g, " "): collapse each maximal whitespace run to one space.
The flag records whether the previous character was part of a whitespace run. -/
def collapseWsAux : Bool → List Char → List Char
  | _, [] => []
  | prevWs, c :: cs =>
    if isJsSpace c then
      if prevWs then collapseWsAux true cs
      else ' ' :: collapseWsAux true cs
    else c :: collapseWsAux false cs

/-- Drop leading JS whitespace. -/
def dropWsLeft (l : List Char) : List Char := l.dropWhile isJsSpace

/-- JavaScript `String.prototype.trim` (on the whitespace subset above). -/
def trimWs (l : List Char) : List Char :=
  ((l.dropWhile isJsSpace).reverse.dropWhile isJsSpace).reverse

/-- Function cleanText from scraper.js: replace NBSP with a space, collapse whitespace
runs to single spaces, trim. -/
def cleanTextChars (l : List Char) : List Char :=
  trimWs (collapseWsAux false (l.map fun c => if c.toNat = 160 then ' ' else c))

/-- String-level wrapper for cleanTextChars. -/
def cleanText (s : String) : String := ⟨cleanTextChars s.data⟩

/-- Split on the single space character, as JS `split(" ")`. -/
def splitSpaceAux (cur : List Char) : List Char → List (List Char)
  | [] => [cur.reverse]
  | c :: cs =>
    if c = ' ' then cur.reverse :: splitSpaceAux [] cs
    else splitSpaceAux (c :: cur) cs

/-- Model of split(" ").filter(Boolean): tokens between spaces, empties removed. -/
def splitSpace (l : List Char) : List (List Char) :=
  (splitSpaceAux [] l).filter (· ≠ [])

/-- The normalization pipeline of teacherMatchKey (reminderService.js lines
18-22 and botService.js lines 153-157): lowercase, dots to spaces, collapse
whitespace, trim. -/
def teacherKeyNorm (l : List Char) : List Char :=
  trimWs (collapseWsAux false ((l.map jsLower).map fun c => if c = '.' then ' ' else c))

/-- The token list parts of teacherMatchKey. -/
def teacherKeyParts (l : List Char) : List (List Char) :=
  splitSpace (teacherKeyNorm l)

/-- Function teacherMatchKey from reminderService.js lines 17-40 (an identical copy
lives in botService.js lines 152-175), on character lists. -/
def teacherMatchKeyChars (value : List Char) : List Char :=
  let normalized := teacherKeyNorm value
  if normalized = [] then []
  else
    match teacherKeyParts value with
    | [] => []
    | surname :: rest =>
      let initialsRaw := rest.flatten
      if initialsRaw = [] then surname
      else
        match rest with
        | p1 :: p2 :: _ => surname ++ ':' :: (p1.take 1 ++ p2.take 1)
        | _ => surname ++ ':' :: initialsRaw.take 2

/-- String-level teacherMatchKey. -/
def teacherMatchKey (s : String) : String := ⟨teacherMatchKeyChars s.data⟩

/-!
Teacher identity dedup from botService.js `MaxBotService.getActiveTeachers`
(lines 1039-1070): fold the active teacher documents into a map keyed by
teacherMatchKey(name); a later record replaces the kept one only when its
score name.length + (code ? 5 : 0) is strictly higher.
-/
/-- A teacher document as read back from the snapshot store: display name and
nullable source code.  JS truthiness makes an empty-string code behave as
null, which normTeacherCode reproduces. -/
structure TeacherRec where
  name : String
  code : Option String
  deriving DecidableEq, Repr

/-- Model of the JS expression (teacher.code || null): empty string collapses to null. -/
def normTeacherCode (c : Option String) : Option String :=
  match c with
  | some s => if s = "" then none else some s
  | none => none

/-- The dedup score name.length + (code ? 5 : 0).  String.length agrees
with JS .length on the BMP strings this program handles. -/
def teacherScore (t : TeacherRec) : Nat :=
  t.name.length + (if (normTeacherCode t.code).isSome then 5 else 0)

/-- Association-list lookup standing in for Map.prototype.get. -/
def findAssoc (k : String) : List (String × TeacherRec) → Option TeacherRec
  | [] => none
  | (k', v) :: rest => if k' = k then some v else findAssoc k rest

/-- Association-list update standing in for Map.prototype.set: replace the
first binding of the key in place, or append a new binding. -/
def setAssoc (k : String) (v : TeacherRec) : List (String × TeacherRec) → List (String × TeacherRec)
  | [] => [(k, v)]
  | (k', v') :: rest =>
    if k' = k then (k, v) :: rest else (k', v') :: setAssoc k v rest

/-- One iteration of the teachers.forEach body of getActiveTeachers. -/
def dedupTeacherStep (m : List (String × TeacherRec)) (t : TeacherRec) : List (String × TeacherRec) :=
  let key := teacherMatchKey t.name
  if key = "" then m
  else
    match findAssoc key m with
    | none => setAssoc key ⟨t.name, normTeacherCode t.code⟩ m
    | some prev =>
      if teacherScore t > teacherScore prev then
        setAssoc key ⟨t.name, normTeacherCode t.code⟩ m
      else m

/-- The dedup map built by getActiveTeachers over the whole teacher list
(the final sort only reorders values and is not modelled). -/
def resolveTeachers (ts : List TeacherRec) : List (String × TeacherRec) :=
  ts.foldl dedupTeacherStep []

/-!
HTML fragment processing from scraper.js `parseDayCellHtml` (lines 213-230):
the raw cell HTML goes through three global regex replacements, in order
break tags to newline, remaining tags to a space, HTML NBSP entity to a space,
before being split on newlines and cleaned.
-/
/-- Match one occurrence of the regex br tail: optional whitespace then "/>" or
">"; returns the remaining input after the tag. -/
def matchBrTail (l : List Char) : Option (List Char) :=
  match l.dropWhile isJsSpace with
  | a :: rest =>
    if a = '/' then
      match rest with
      | b :: t => if b = '>' then some t else none
      | [] => none
    else if a = '>' then some rest
    else none
  | [] => none

/-- Match one occurrence of the regex br head (case-insensitive "<br") followed
by the tail above. -/
def matchBr (l : List Char) : Option (List Char) :=
  match l with
  | c :: b :: r :: rest =>
    if c = '<' ∧ jsLower b = 'b' ∧ jsLower r = 'r' then matchBrTail rest else none
  | _ => none

/-- Model of the JS replacement replace(/<br\s*\/?>/gi, "\n"): left-to-right,
non-overlapping.  The fuel argument only forces structural recursion; every
successful match consumes at least one character, so fuel equal to the input
length (as supplied by replBr) is never exhausted. -/
def replBrAux : Nat → List Char → List Char
  | 0, l => l
  | _ + 1, [] => []
  | fuel + 1, c :: cs =>
    match matchBr (c :: cs) with
    | some rest => '\n' :: replBrAux fuel rest
    | none => c :: replBrAux fuel cs

/-- Break-tag replacement at full fuel. -/
def replBr (l : List Char) : List Char := replBrAux l.length l

/-- Match one occurrence of the regex tag pattern: a less-than sign, one or
more characters other than greater-than, then greater-than; returns the rest. -/
def matchTag (l : List Char) : Option (List Char) :=
  match l with
  | c :: rest =>
    if c = '<' then
      match rest.dropWhile (· ≠ '>') with
      | _ :: t => if rest.takeWhile (· ≠ '>') = [] then none else some t
      | [] => none
    else none
  | [] => none

/-- Model of the JS replacement replace(/<[^>]+>/g, " "), with the same fuel
scheme as replBrAux. -/
def replTagsAux : Nat → List Char → List Char
  | 0, l => l
  | _ + 1, [] => []
  | fuel + 1, c :: cs =>
    match matchTag (c :: cs) with
    | some rest => ' ' :: replTagsAux fuel rest
    | none => c :: replTagsAux fuel cs

/-- Tag replacement at full fuel. -/
def replTags (l : List Char) : List Char := replTagsAux l.length l

/-- Model of the JS replacement replace(/&nbsp;/gi, " "). -/
def replNbsp : List Char → List Char
  | a :: b :: c :: d :: e :: f :: rest =>
    if a = '&' ∧ jsLower b = 'n' ∧ jsLower c = 'b' ∧ jsLower d = 's' ∧
        jsLower e = 'p' ∧ f = ';' then
      ' ' :: replNbsp rest
    else a :: replNbsp (b :: c :: d :: e :: f :: rest)
  | l => l

/-- Split on the newline character, keeping empty chunks (JS split("\n")). -/
def splitNlAux (cur : List Char) : List Char → List (List Char)
  | [] => [cur.reverse]
  | c :: cs =>
    if c = '\n' then cur.reverse :: splitNlAux [] cs
    else splitNlAux (c :: cur) cs

/-- Function parseRuDate from scraper.js lines 9-14: clean the text, match
the anchored pattern two digits, dot, two digits, dot, four digits, and emit
the ISO form yyyy-mm-dd. -/
def parseRuDateChars (l : List Char) : Option (List Char) :=
  match cleanTextChars l with
  | [d1, d2, '.', m1, m2, '.', y1, y2, y3, y4] =>
    if d1.isDigit ∧ d2.isDigit ∧ m1.isDigit ∧ m2.isDigit ∧
        y1.isDigit ∧ y2.isDigit ∧ y3.isDigit ∧ y4.isDigit then
      some [y1, y2, y3, y4, '-', m1, m2, '-', d1, d2]
    else none
  | _ => none

/-- Result of parseDayCellHtml: an optional resolved ISO date plus an optional
day label. -/
structure DayCellInfo where
  date : Option String
  dayLabel : Option String
  deriving DecidableEq, Repr

/-- Method OmAcademyScraper.parseDayCellHtml, scraper.js lines 213-230. -/
def parseDayCellHtml (rawHtml : String) : DayCellInfo :=
  let normalized := replNbsp (replTags (replBr rawHtml.data))
  let parts := ((splitNlAux [] normalized).map cleanTextChars).filter (· ≠ [])
  match parts with
  | [] => ⟨none, none⟩
  | p0 :: rest =>
    { date := (parseRuDateChars p0).map (⟨·⟩),
      dayLabel := match rest with
        | p1 :: _ => some ⟨p1⟩
        | [] => none }

/-!
Lesson-cell extraction and schedule-row parsing from scraper.js.  A table cell
is modelled by the pieces of the DOM the code reads from it: its inner HTML
(used only for day parsing), whether it carries the "nul" marker class, the
text of the first anchors of classes z1..z4, the full cell text, and the cell
text after removing the anchor sets that the two fallback paths remove.
-/
/-- A schedule table cell, as observed through the cheerio queries the scraper
performs on it. -/
structure Cell where
  innerHtml : String
  nulClass : Bool
  z1 : String
  z2 : String
  z3 : String
  z4 : String
  textAll : String
  textNoZ234 : String
  textNoZ124 : String
  deriving DecidableEq, Repr

/-- Method OmAcademyScraper.extractSubjectFromCell (scraper.js lines 240-247):
the first z1 anchor text, with the cell text minus z2/z3/z4 anchors as a
plain-text fallback. -/
def extractSubjectFromCell (td : Cell) : String :=
  let byAnchor := cleanText td.z1
  if byAnchor ≠ "" then byAnchor else cleanText td.textNoZ234

/-- Payload of a teacher-page lesson cell. -/
structure TeacherCellPayload where
  groupName : Option String
  room : Option String
  subject : Option String
  deriving DecidableEq, Repr

/-- Method OmAcademyScraper.extractTeacherCellPayload (scraper.js lines
258-278): group from z1 and z4 joined by a space, room from z2, subject from
z3 with the cell text minus z1/z2/z4 anchors as fallback. -/
def extractTeacherCellPayload (td : Cell) : TeacherCellPayload :=
  let groupPrimary := cleanText td.z1
  let room := cleanText td.z2
  let subjectByAnchor := cleanText td.z3
  let groupSecondary := cleanText td.z4
  let joined :=
    cleanText (String.intercalate " " (([groupPrimary, groupSecondary]).filter (· ≠ "")))
  let groupName := if joined = "" then none else some joined
  let subject :=
    if subjectByAnchor ≠ "" then some subjectByAnchor
    else
      let fb := cleanText td.textNoZ124
      if fb = "" then none else some fb
  ⟨groupName, (if room = "" then none else some room), subject⟩

/-- Function makeSyntheticGroupCode (scraper.js lines 26-29).  An Option
models the JS null; empty strings are falsy, like null. -/
def makeSyntheticGroupCode (groupName teacherCode : Option String) (columnIndex : Nat) : String :=
  match groupName with
  | some g =>
    if g ≠ "" then "tp:" ++ g
    else "tp:" ++ (tcOr teacherCode) ++ ":" ++ toString columnIndex
  | none => "tp:" ++ (tcOr teacherCode) ++ ":" ++ toString columnIndex
where
  /-- JS expression (teacherCode || "unknown"). -/
  tcOr : Option String → String
    | some c => if c ≠ "" then c else "unknown"
    | none => "unknown"

/-- JavaScript Number.parseInt(s, 10) restricted to the outcomes the scraper
distinguishes: None models NaN (Number.isFinite false). -/
def jsParseInt (l : List Char) : Option Int :=
  let l' := l.dropWhile isJsSpace
  match l' with
  | '-' :: rest => (jsParseDigits rest).map (fun n => -(n : Int))
  | '+' :: rest => (jsParseDigits rest).map (fun n => (n : Int))
  | _ => (jsParseDigits l').map (fun n => (n : Int))
where
  /-- Longest leading digit run, as a number; none when there are no digits. -/
  jsParseDigits (l : List Char) : Option Nat :=
    let ds := l.takeWhile Char.isDigit
    if ds = [] then none
    else some (ds.foldl (fun acc c => acc * 10 + (c.toNat - 48)) 0)

/-- A parsed lesson row, the ScraperLesson record of scraper.js. -/
structure Lesson where
  groupCode : String
  groupName : Option String
  date : String
  dayLabel : Option String
  lessonNumber : Int
  columnIndex : Nat
  subject : String
  room : Option String
  teacher : Option String
  sourceUrl : String
  deriving DecidableEq, Repr

/-- The carry state of the row scan: currentDate and currentDayLabel. -/
structure DayState where
  date : Option String
  dayLabel : Option String
  deriving DecidableEq, Repr

/-- The lessonCells.forEach body of fetchGroupLessons (scraper.js lines
322-345), walking the lesson slots of one row with their zero-based index. -/
def groupLessonsOfCells (groupCode pageGroupName url : String) (st : DayState)
    (lessonNumber : Int) : Nat → List Cell → List Lesson
  | _, [] => []
  | idx, td :: rest =>
    let tail := groupLessonsOfCells groupCode pageGroupName url st lessonNumber (idx + 1) rest
    if td.nulClass then tail
    else
      let subject := extractSubjectFromCell td
      let room := cleanText td.z2
      let teacher := cleanText td.z3
      if subject = "" then tail
      else
        match st.date with
        | none => tail
        | some d =>
          { groupCode := groupCode, groupName := some pageGroupName, date := d,
            dayLabel := st.dayLabel, lessonNumber := lessonNumber,
            columnIndex := idx + 1, subject := subject,
            room := if room = "" then none else some room,
            teacher := if teacher = "" then none else some teacher,
            sourceUrl := url } :: tail

/-- One iteration of the table-row loop of fetchGroupLessons (scraper.js lines
298-346): resolve the day-carry state, read the lesson-number cell, then emit
the row's lessons.  Returns the state passed to the next row. -/
def processGroupRow (groupCode pageGroupName url : String) (st : DayState)
    (cells : List Cell) : DayState × List Lesson :=
  match cells with
  | [] => (st, [])
  | c0 :: restCells =>
    let parsed := parseDayCellHtml c0.innerHtml
    let st' : DayState :=
      match parsed.date with
      | some d => ⟨some d, parsed.dayLabel⟩
      | none => st
    let offsetCells :=
      match parsed.date with
      | some _ => restCells
      | none => c0 :: restCells
    match offsetCells with
    | [] => (st', [])
    | pairCell :: lessonCells =>
      match jsParseInt (cleanTextChars pairCell.textAll.data) with
      | none => (st', [])
      | some lessonNumber =>
        (st', groupLessonsOfCells groupCode pageGroupName url st' lessonNumber 0 lessonCells)

/-- Fold of processGroupRow over the page rows, starting from an empty carry
state, concatenating the emitted lessons. -/
def processGroupRowsAux (groupCode pageGroupName url : String) (st : DayState) :
    List (List Cell) → List Lesson
  | [] => []
  | row :: rest =>
    let out := processGroupRow groupCode pageGroupName url st row
    out.2 ++ processGroupRowsAux groupCode pageGroupName url out.1 rest

/-- The row-parsing core of OmAcademyScraper.fetchGroupLessons (scraper.js
lines 286-355); the HTTP fetch and the h1 title resolution are parameters. -/
def processGroupPage (groupCode pageGroupName url : String) (rows : List (List Cell)) : List Lesson :=
  processGroupRowsAux groupCode pageGroupName url ⟨none, none⟩ rows

/-- The lessonCells.forEach body of fetchTeacherLessons (scraper.js lines
398-419).  The teacher field value (pageTeacherName || teacher.name || null)
is resolved by the caller and passed in. -/
def teacherLessonsOfCells (teacherCode : Option String) (teacherField : Option String)
    (url : String) (st : DayState) (lessonNumber : Int) : Nat → List Cell → List Lesson
  | _, [] => []
  | idx, td :: rest =>
    let tail := teacherLessonsOfCells teacherCode teacherField url st lessonNumber (idx + 1) rest
    if td.nulClass then tail
    else
      let payload := extractTeacherCellPayload td
      let columnIndex := idx + 1
      match payload.subject with
      | none => tail
      | some subject =>
        match st.date with
        | none => tail
        | some d =>
          { groupCode := makeSyntheticGroupCode payload.groupName teacherCode columnIndex,
            groupName := payload.groupName, date := d, dayLabel := st.dayLabel,
            lessonNumber := lessonNumber, columnIndex := columnIndex,
            subject := subject, room := payload.room, teacher := teacherField,
            sourceUrl := url } :: tail

/-- One iteration of the table-row loop of fetchTeacherLessons (scraper.js
lines 375-420); identical day/pair-cell handling as the group variant. -/
def processTeacherRow (teacherCode teacherField : Option String) (url : String)
    (st : DayState) (cells : List Cell) : DayState × List Lesson :=
  match cells with
  | [] => (st, [])
  | c0 :: restCells =>
    let parsed := parseDayCellHtml c0.innerHtml
    let st' : DayState :=
      match parsed.date with
      | some d => ⟨some d, parsed.dayLabel⟩
      | none => st
    let offsetCells :=
      match parsed.date with
      | some _ => restCells
      | none => c0 :: restCells
    match offsetCells with
    | [] => (st', [])
    | pairCell :: lessonCells =>
      match jsParseInt (cleanTextChars pairCell.textAll.data) with
      | none => (st', [])
      | some lessonNumber =>
        (st', teacherLessonsOfCells teacherCode teacherField url st' lessonNumber 0 lessonCells)

/-!
The MongoDB-backed ScheduleRepository from config.js, modelled as a record of
document lists.  Collection sorts only reorder query results and are omitted:
every claim settled below is order-independent.  updateOne semantics (first
matching document) are modelled directly; each collection's unique index keeps
at most one match in reachable states.
-/
/-- A document of the groups collection (fields not read by any claim are
omitted: href, url, sourceUpdatedAt, updatedAt). -/
structure GroupDoc where
  code : String
  name : String
  lastSeenSyncId : String
  deriving DecidableEq, Repr

/-- A document of the teachers collection. -/
structure TeacherDoc where
  key : String
  code : Option String
  name : String
  lastSeenSyncId : String
  deriving DecidableEq, Repr

/-- A document of the lessons collection: a scraped lesson tagged with the
run that wrote it. -/
structure LessonDoc where
  syncId : String
  doc : Lesson
  deriving DecidableEq, Repr

/-- A document of the syncRuns collection. -/
structure RunDoc where
  syncId : String
  trigger : String
  status : String
  deriving DecidableEq, Repr

/-- The whole database: meta holds the activeSyncId field of the singleton
meta document, reminderLogs the reminderKey values (the unique index on
reminderKey is the only part of those documents any claim reads). -/
structure ScheduleDB where
  groups : List GroupDoc
  teachers : List TeacherDoc
  lessons : List LessonDoc
  meta : Option String
  syncRuns : List RunDoc
  reminderLogs : List String
  deriving DecidableEq, Repr

/-- Group payload passed into saveSnapshot. -/
structure GroupIn where
  code : String
  name : String
  deriving DecidableEq, Repr

/-- Teacher payload passed into saveSnapshot (built by buildTeachersSnapshot). -/
structure TeacherIn where
  key : String
  code : Option String
  name : String
  deriving DecidableEq, Repr

/-- ScheduleRepository.startSyncRun (config.js lines 126-133). -/
def startSyncRun (db : ScheduleDB) (syncId trigger : String) : ScheduleDB :=
  { db with syncRuns := db.syncRuns ++ [⟨syncId, trigger, "running"⟩] }

/-- Status update on the first run document matching the syncId, as
updateOne({syncId}, {$set:{status,...}}) behaves. -/
def setRunStatus (syncId status : String) : List RunDoc → List RunDoc
  | [] => []
  | r :: rest =>
    if r.syncId = syncId then { r with status := status } :: rest
    else r :: setRunStatus syncId status rest

/-- ScheduleRepository.finishSyncRun (config.js lines 142-152), restricted to
the status field of the payload. -/
def finishSyncRun (db : ScheduleDB) (syncId status : String) : ScheduleDB :=
  { db with syncRuns := setRunStatus syncId status db.syncRuns }

/-- One updateOne-with-upsert of the groups bulkWrite in saveSnapshot: replace
the first document with this code, or append a new one. -/
def upsertGroup (syncId : String) (g : GroupIn) : List GroupDoc → List GroupDoc
  | [] => [⟨g.code, g.name, syncId⟩]
  | d :: rest =>
    if d.code = g.code then ⟨g.code, g.name, syncId⟩ :: rest
    else d :: upsertGroup syncId g rest

/-- The groups bulkWrite of saveSnapshot (config.js lines 163-183). -/
def upsertGroups (syncId : String) (gs : List GroupIn) (docs : List GroupDoc) : List GroupDoc :=
  gs.foldl (fun acc g => upsertGroup syncId g acc) docs

/-- One updateOne-with-upsert of the teachers bulkWrite in saveSnapshot. -/
def upsertTeacher (syncId : String) (t : TeacherIn) : List TeacherDoc → List TeacherDoc
  | [] => [⟨t.key, normTeacherCode t.code, t.name, syncId⟩]
  | d :: rest =>
    if d.key = t.key then ⟨t.key, normTeacherCode t.code, t.name, syncId⟩ :: rest
    else d :: upsertTeacher syncId t rest

/-- The teachers bulkWrite of saveSnapshot (config.js lines 185-207). -/
def upsertTeachers (syncId : String) (ts : List TeacherIn) (docs : List TeacherDoc) : List TeacherDoc :=
  ts.foldl (fun acc t => upsertTeacher syncId t acc) docs

/-- Equality on the natural deduplication key of the lessons unique index
uniq_lesson_by_sync (config.js lines 97-109): syncId, groupCode, date,
lessonNumber, columnIndex, subject, room, teacher. -/
def sameLessonNatKey (s1 : String) (a : Lesson) (s2 : String) (b : Lesson) : Bool :=
  s1 = s2 && a.groupCode = b.groupCode && a.date = b.date &&
  a.lessonNumber = b.lessonNumber && a.columnIndex = b.columnIndex &&
  a.subject = b.subject && a.room = b.room && a.teacher = b.teacher

/-- One $setOnInsert upsert of the lessons bulkWrite: insert only when no
document carries the same natural key. -/
def insertLessonIfAbsent (syncId : String) (l : Lesson) (docs : List LessonDoc) : List LessonDoc :=
  if docs.any (fun d => sameLessonNatKey d.syncId d.doc syncId l) then docs
  else docs ++ [⟨syncId, l⟩]

/-- The lessons bulkWrite of saveSnapshot (config.js lines 209-236). -/
def insertLessons (syncId : String) (ls : List Lesson) (docs : List LessonDoc) : List LessonDoc :=
  ls.foldl (fun acc l => insertLessonIfAbsent syncId l acc) docs

/-- The meta updateOne of saveSnapshot (config.js lines 238-248): promote the
run by pointing activeSyncId at it. -/
def setActiveSyncId (db : ScheduleDB) (syncId : String) : ScheduleDB :=
  { db with meta := some syncId }

/-- The three garbage-collection deletes of saveSnapshot (config.js lines
250-253). -/
def gcSuperseded (db : ScheduleDB) (syncId : String) : ScheduleDB :=
  { db with
    lessons := db.lessons.filter (·.syncId = syncId),
    groups := db.groups.filter (·.lastSeenSyncId = syncId),
    teachers := db.teachers.filter (·.lastSeenSyncId = syncId) }

/-- ScheduleRepository.saveSnapshot (config.js lines 160-254): group and
teacher upserts, lesson insert-if-absent, pointer promotion, then GC. -/
def saveSnapshot (db : ScheduleDB) (syncId : String) (gs : List GroupIn)
    (ts : List TeacherIn) (ls : List Lesson) : ScheduleDB :=
  let db1 := { db with groups := upsertGroups syncId gs db.groups }
  let db2 := { db1 with teachers := upsertTeachers syncId ts db1.teachers }
  let db3 := { db2 with lessons := insertLessons syncId ls db2.lessons }
  gcSuperseded (setActiveSyncId db3 syncId) syncId

/-- ScheduleRepository.getActiveGroups (config.js lines 270-278), sort
omitted. -/
def getActiveGroups (db : ScheduleDB) : List GroupDoc :=
  match db.meta with
  | none => []
  | some a => db.groups.filter (·.lastSeenSyncId = a)

/-- ScheduleRepository.getActiveTeachers (config.js lines 285-293), sort
omitted. -/
def getActiveTeachersQuery (db : ScheduleDB) : List TeacherDoc :=
  match db.meta with
  | none => []
  | some a => db.teachers.filter (·.lastSeenSyncId = a)

/-- Optional exact-match filters of getActiveLessons. -/
structure LessonFilters where
  group : Option String := none
  groupCode : Option String := none
  date : Option String := none
  teacher : Option String := none
  room : Option String := none
  deriving DecidableEq, Repr

/-- JS truthiness of an optional string: present and non-empty. -/
def truthyS : Option String → Bool
  | some s => s ≠ ""
  | none => false

/-- Whether the character list p is a leading segment of s. -/
def strStartsWith (p s : String) : Bool := decide (s.data.take p.data.length = p.data)

/-- The query document built by getActiveLessons (config.js lines 305-316) as
a predicate on one lesson document.  When the group filter is set, groupCode
gets the $not /^tp:/ condition; a groupCode filter set afterwards overwrites
that condition, exactly as the JS object assignment does. -/
def lessonMatchesQuery (active : String) (f : LessonFilters) (d : LessonDoc) : Bool :=
  d.syncId = active &&
  (if truthyS f.group then d.doc.groupName = f.group else true) &&
  (if truthyS f.groupCode then some d.doc.groupCode = f.groupCode
   else if truthyS f.group then !(strStartsWith "tp:" d.doc.groupCode) else true) &&
  (if truthyS f.date then some d.doc.date = f.date else true) &&
  (if truthyS f.teacher then d.doc.teacher = f.teacher else true) &&
  (if truthyS f.room then d.doc.room = f.room else true)

/-- ScheduleRepository.getActiveLessons (config.js lines 301-322), sort
omitted. -/
def getActiveLessons (db : ScheduleDB) (f : LessonFilters) : List LessonDoc :=
  match db.meta with
  | none => []
  | some a => db.lessons.filter (lessonMatchesQuery a f)

/-- Lexicographic string order, as MongoDB $lt compares the date strings. -/
def charListLt : List Char → List Char → Bool
  | [], [] => false
  | [], _ :: _ => true
  | _ :: _, [] => false
  | x :: xs, y :: ys => if x < y then true else if y < x then false else charListLt xs ys

/-- ScheduleRepository.deleteActiveLessonsOlderThan (config.js lines 340-350):
delete the active run's lessons with date strictly below keepFromDate. -/
def deleteActiveLessonsOlderThan (db : ScheduleDB) (keepFromDate : String) : ScheduleDB :=
  match db.meta with
  | none => db
  | some a =>
    { db with
      lessons := db.lessons.filter
        (fun d => !(d.syncId = a && charListLt d.doc.date.data keepFromDate.data)) }

/-- ScheduleRepository.registerReminderSend (config.js lines 358-369): insert
the reminder document; a duplicate key (unique index on reminderKey) reports
false without inserting. -/
def registerReminderSend (logs : List String) (key : String) : List String × Bool :=
  if key ∈ logs then (logs, false) else (logs ++ [key], true)

/-!
Calendar arithmetic behind shiftIsoDate (syncService.js lines 10-14 and
reminderService.js lines 4-8): JavaScript builds a UTC Date from the ISO day,
shifts it by whole days through setUTCDate, and reads the ISO day back.  That
is proleptic-Gregorian day arithmetic, embedded below through day-number
conversions.  Lean's Int division is Euclidean, so the conversions hold for
all inputs without sign adjustments.
-/
/-- Gregorian leap-year rule. -/
def isLeapYear (y : Int) : Bool := (y % 4 = 0 && y % 100 ≠ 0) || y % 400 = 0

/-- Number of days of a month, used to validate parsed ISO dates the way the
JS Date ISO parser does. -/
def daysInMonth (y m : Int) : Int :=
  if m = 2 then (if isLeapYear y then 29 else 28)
  else if m = 4 ∨ m = 6 ∨ m = 9 ∨ m = 11 then 30
  else 31

/-- Days since 1970-01-01 of a civil date. -/
def daysFromCivil (y m d : Int) : Int :=
  let y' := if m ≤ 2 then y - 1 else y
  let era := y' / 400
  let yoe := y' - era * 400
  let mp := (m + 9) % 12
  let doy := (153 * mp + 2) / 5 + d - 1
  let doe := yoe * 365 + yoe / 4 - yoe / 100 + doy
  era * 146097 + doe - 719468

/-- Civil date of a day count since 1970-01-01. -/
def civilFromDays (z0 : Int) : Int × Int × Int :=
  let z := z0 + 719468
  let era := z / 146097
  let doe := z - era * 146097
  let yoe := (doe - doe / 1460 + doe / 36524 - doe / 146096) / 365
  let y := yoe + era * 400
  let doy := doe - (365 * yoe + yoe / 4 - yoe / 100)
  let mp := (5 * doy + 2) / 153
  let d := doy - (153 * mp + 2) / 5 + 1
  let m := if mp < 10 then mp + 3 else mp - 9
  (if m ≤ 2 then y + 1 else y, m, d)

/-- Numeric value of a digit character. -/
def digitVal (c : Char) : Nat := c.toNat - 48

/-- Parse a strict YYYY-MM-DD string, validating ranges as the JS Date ISO
parser does (an out-of-range month or day yields an Invalid Date). -/
def parseIsoDateStrict (s : String) : Option (Int × Int × Int) :=
  match s.data with
  | [y1, y2, y3, y4, '-', m1, m2, '-', d1, d2] =>
    if y1.isDigit ∧ y2.isDigit ∧ y3.isDigit ∧ y4.isDigit ∧
        m1.isDigit ∧ m2.isDigit ∧ d1.isDigit ∧ d2.isDigit then
      let y : Int := (((digitVal y1 * 10 + digitVal y2) * 10 + digitVal y3) * 10 + digitVal y4 : Nat)
      let m : Int := (digitVal m1 * 10 + digitVal m2 : Nat)
      let d : Int := (digitVal d1 * 10 + digitVal d2 : Nat)
      if 1 ≤ m ∧ m ≤ 12 ∧ 1 ≤ d ∧ d ≤ daysInMonth y m then some (y, m, d) else none
    else none
  | _ => none

/-- Left-pad a number below 10000 to four digits. -/
def pad4 (n : Int) : String :=
  let k := n.toNat
  if k < 10 then "000" ++ toString k
  else if k < 100 then "00" ++ toString k
  else if k < 1000 then "0" ++ toString k
  else toString k

/-- Left-pad a number below 100 to two digits. -/
def pad2 (n : Int) : String :=
  let k := n.toNat
  if k < 10 then "0" ++ toString k else toString k

/-- Function shiftIsoDate (syncService.js lines 10-14, duplicated in
reminderService.js lines 4-8): none models the path where the Date would be
Invalid and toISOString would throw; every caller passes a valid ISO day
produced by Intl.DateTimeFormat. -/
def shiftIsoDate (iso : String) (delta : Int) : Option String :=
  (parseIsoDateStrict iso).map fun ymd =>
    let c := civilFromDays (daysFromCivil ymd.1 ymd.2.1 ymd.2.2 + delta)
    pad4 c.1 ++ "-" ++ pad2 c.2.1 ++ "-" ++ pad2 c.2.2

/-- SyncService.cleanupOldLessons (syncService.js lines 57-67): keepFromDate
is today minus one day; today is the Intl-formatted current date in the
configured timezone and enters the model as a parameter. -/
def cleanupOldLessons (db : ScheduleDB) (today : String) : ScheduleDB × Option String :=
  match shiftIsoDate today (-1) with
  | some keep => (deleteActiveLessonsOlderThan db keep, some keep)
  | none => (db, none)

/-!
SyncService.run (syncService.js lines 75-170), as a state-passing function
over the database.  The scrape phase is summarised by its output data (the
teacher-page phase has its own try/catch and cannot fail the run).  An
uncaught exception can interrupt the run at the points enumerated by
SyncFailPoint; each bulkWrite is treated as atomic.  On the failure path the
catch block records the run as failed and returns without further writes.
-/
/-- Where an uncaught error interrupts SyncService.run before promotion. -/
inductive SyncFailPoint where
  | duringFetch
  | duringSaveGroups
  | duringSaveTeachers
  | duringSaveLessons
  | duringPromote
  deriving DecidableEq, Repr

/-- The scrape output consumed by the persistence phase of the run. -/
structure ScrapeData where
  groups : List GroupIn
  teachers : List TeacherIn
  lessons : List Lesson
  deriving DecidableEq, Repr

/-- SyncService.run: the success path runs saveSnapshot, the retention
cleanup and a success finish; a failing run applies the writes preceding the
failure point and then the catch block's failed finish. -/
def syncRunModel (db : ScheduleDB) (syncId trigger today : String) (data : ScrapeData)
    (fail : Option SyncFailPoint) : ScheduleDB :=
  let db0 := startSyncRun db syncId trigger
  match fail with
  | none =>
    let db1 := saveSnapshot db0 syncId data.groups data.teachers data.lessons
    let db2 := (cleanupOldLessons db1 today).1
    finishSyncRun db2 syncId "success"
  | some fp =>
    let dbW :=
      match fp with
      | .duringFetch => db0
      | .duringSaveGroups => db0
      | .duringSaveTeachers =>
        { db0 with groups := upsertGroups syncId data.groups db0.groups }
      | .duringSaveLessons =>
        let d1 := { db0 with groups := upsertGroups syncId data.groups db0.groups }
        { d1 with teachers := upsertTeachers syncId data.teachers d1.teachers }
      | .duringPromote =>
        let d1 := { db0 with groups := upsertGroups syncId data.groups db0.groups }
        let d2 := { d1 with teachers := upsertTeachers syncId data.teachers d1.teachers }
        { d2 with lessons := insertLessons syncId data.lessons d2.lessons }
    finishSyncRun dbW syncId "failed"

/-- SyncService.buildTeachersSnapshot (syncService.js lines 179-211): roster
teachers get cp-prefixed keys; lesson teacher names add name-prefixed entries
on first sight only. -/
def buildTeachersSnapshot (lessons : List Lesson) (sourceTeachers : List GroupIn) : List TeacherIn :=
  let fromSource : List TeacherIn :=
    sourceTeachers.map fun t => ⟨"cp:" ++ t.code, some t.code, t.name⟩
  let step (acc : List TeacherIn) (l : Lesson) : List TeacherIn :=
    let teacherName := trimWs (optOrEmpty l.teacher).data
    if teacherName = [] then acc
    else
      let key := "name:" ++ String.mk (teacherName.map jsLower)
      if acc.any (fun t => t.key = key) then acc
      else acc ++ [⟨key, none, ⟨teacherName⟩⟩]
  lessons.foldl step fromSource
where
  /-- JS expression (value || ""): null collapses to the empty string. -/
  optOrEmpty : Option String → String
    | some s => s
    | none => ""

/-!
The reminder dispatch loop of ReminderService.processUserReminder
(reminderService.js lines 219-257): for each candidate lesson, build the
composite key, gate on registerReminderSend, and attempt the message send only
after a fresh insert; a send failure is caught, logged and not retried.  The
send outcome is an oracle on keys.
-/
/-- JS expression (value || "") for nullable strings. -/
def orEmpty : Option String → String
  | some s => s
  | none => ""

/-- The composite reminder key (reminderService.js lines 220-229). -/
def reminderKeyOf (userId role : String) (daysBefore : Nat) (l : Lesson) : String :=
  String.intercalate "|"
    [userId, role, toString daysBefore, l.date, toString l.lessonNumber, l.subject,
      l.groupCode, orEmpty l.teacher]

/-- The candidate loop: returns the final ledger, the keys whose sends were
attempted (in order) and the sentCount the method returns. -/
def processCandidates (sendOk : String → Bool) (userId role : String) (daysBefore : Nat)
    (ledger : List String) : List Lesson → List String × List String × Nat
  | [] => (ledger, [], 0)
  | l :: ls =>
    let key := reminderKeyOf userId role daysBefore l
    let ins := registerReminderSend ledger key
    if ins.2 then
      let rest := processCandidates sendOk userId role daysBefore ins.1 ls
      (rest.1, key :: rest.2.1, (if sendOk key then 1 else 0) + rest.2.2)
    else
      processCandidates sendOk userId role daysBefore ins.1 ls

/-!
The bounded worker pool mapLimit (scraper.js lines 31-49).  The shared cursor
is read and incremented synchronously (no await between the read and the
increment), so a claim is one atomic step; the await on the iterator is the
yield point, modelled by a separate finish step.  Any interleaving of the
workers is a path in the step relation below.
-/
/-- The observable status of one pool worker: waiting to claim an index, busy
processing a claimed index, or returned. -/
inductive WStatus where
  | idle
  | busy (idx : Nat)
  | done
  deriving DecidableEq, Repr

/-- The pool's shared state: the cursor, the result array (none marks a slot
not yet written) and the workers. -/
structure PoolState (β : Type) where
  cursor : Nat
  result : List (Option β)
  workers : List WStatus
  deriving DecidableEq, Repr

/-- Model of Math.max(1, limit). -/
def safeLimit (limit : Int) : Int := max 1 limit

/-- Model of Math.min(safeLimit, items.length): the number of workers the
pool spawns on a non-empty items array. -/
def numWorkers (limit : Int) (n : Nat) : Nat := min (safeLimit limit).toNat n

/-- The number of workers mapLimit actually starts: zero on the early-return
path for an empty items array. -/
def spawnedWorkers (limit : Int) (n : Nat) : Nat :=
  if n = 0 then 0 else numWorkers limit n

/-- The pool state right after mapLimit spawns its workers. -/
def mapLimitInit (β : Type) (n : Nat) (limit : Int) : PoolState β :=
  ⟨0, List.replicate n none, List.replicate (spawnedWorkers limit n) .idle⟩

/-- One scheduler step of the pool: an idle worker claims the cursor (and
retires when the claimed index is out of range), or a busy worker's iterator
call resolves and its result is stored. -/
inductive PoolStep (items : List α) (f : α → Nat → β) : PoolState β → PoolState β → Prop where
  | claim (s : PoolState β) (w : Nat) (hw : s.workers[w]? = some .idle)
      (hlt : s.cursor < items.length) :
      PoolStep items f s ⟨s.cursor + 1, s.result, s.workers.set w (.busy s.cursor)⟩
  | retire (s : PoolState β) (w : Nat) (hw : s.workers[w]? = some .idle)
      (hge : items.length ≤ s.cursor) :
      PoolStep items f s ⟨s.cursor + 1, s.result, s.workers.set w .done⟩
  | finish (s : PoolState β) (w i : Nat) (a : α) (hw : s.workers[w]? = some (.busy i))
      (ha : items[i]? = some a) :
      PoolStep items f s ⟨s.cursor, s.result.set i (some (f a i)), s.workers.set w .idle⟩

/-- All interleavings of the pool from a state. -/
def PoolReach (items : List α) (f : α → Nat → β) : PoolState β → PoolState β → Prop :=
  Relation.ReflTransGen (PoolStep items f)

/-- The pool has finished: Promise.all resolved, every worker returned. -/
def PoolDone (s : PoolState β) : Prop := ∀ w ∈ s.workers, w = WStatus.done

/-- Position-passing map, giving the contract value of the result array. -/
def mapWithIndex (f : α → Nat → β) : List α → Nat → List β
  | [], _ => []
  | a :: as, i => f a i :: mapWithIndex f as (i + 1)

/-- The result mapLimit's contract promises: the worker's output for items[i]
at every index i. -/
def expectedResults (f : α → Nat → β) (items : List α) : List (Option β) :=
  (mapWithIndex f items 0).map some

/-- The pool invariant: results are only ever the iterator's output for their
own index, indices at or beyond the cursor are unwritten, busy workers own
in-range already-claimed unwritten indices exclusively, every claimed index
is written or owned, and a retired worker certifies the cursor has passed the
end. -/
structure PoolInv (items : List α) (f : α → Nat → β) (k : Nat) (s : PoolState β) : Prop where
  len_res : s.result.length = items.length
  len_w : s.workers.length = k
  res_correct : ∀ (i : Nat) (b : β), s.result[i]? = some (some b) →
    ∃ a, items[i]? = some a ∧ b = f a i
  res_unclaimed : ∀ i : Nat, s.cursor ≤ i → i < items.length → s.result[i]? = some none
  busy_lt : ∀ w i : Nat, s.workers[w]? = some (WStatus.busy i) →
    i < items.length ∧ i < s.cursor
  busy_unwritten : ∀ w i : Nat, s.workers[w]? = some (WStatus.busy i) →
    s.result[i]? = some none
  busy_unique : ∀ w w' i : Nat, s.workers[w]? = some (WStatus.busy i) →
    s.workers[w']? = some (WStatus.busy i) → w = w'
  claimed_covered : ∀ i : Nat, i < items.length → i < s.cursor →
    (∃ b, s.result[i]? = some (some b)) ∨ ∃ w : Nat, s.workers[w]? = some (WStatus.busy i)
  done_over : ∀ w : Nat, s.workers[w]? = some WStatus.done → items.length < s.cursor

/-- A minimal lesson record used by the retention-sweep examples; only the
date matters to the sweep. -/
def sampleLesson (d : String) : Lesson :=
  ⟨"g", some "G", d, none, 1, 1, "s", none, none, "u"⟩

/-- Status of the first syncRuns document with the given id, as
getLastSyncRun-style readers observe it. -/
def runStatus (db : ScheduleDB) (id : String) : Option String :=
  (db.syncRuns.find? (fun r => r.syncId = id)).map (·.status)

theorem mapWithIndex_getElem? (f : α → Nat → β) (l : List α) (i0 j : Nat) :
    (mapWithIndex f l i0)[j]? = (l[j]?).map fun a => f a (i0 + j) := by
  induction l generalizing i0 j with
  | nil => simp [mapWithIndex]
  | cons a as ih =>
    cases j with
    | zero => simp [mapWithIndex]
    | succ j =>
      simp only [mapWithIndex, List.getElem?_cons_succ, ih]
      have : i0 + 1 + j = i0 + (j + 1) := by omega
      rw [this]

theorem expectedResults_getElem? (f : α → Nat → β) (items : List α) (i : Nat) :
    (expectedResults f items)[i]? = (items[i]?).map fun a => some (f a i) := by
  simp [expectedResults, List.getElem?_map, mapWithIndex_getElem?]
  cases items[i]? <;> simp

theorem poolInv_init (items : List α) (f : α → Nat → β) (limit : Int) :
    PoolInv items f (spawnedWorkers limit items.length)
      (mapLimitInit β items.length limit) := by
  constructor <;>
    simp_all [mapLimitInit, List.getElem?_replicate]

theorem poolStep_inv {items : List α} {f : α → Nat → β} {k : Nat} {s s' : PoolState β}
    (hs : PoolInv items f k s) (hstep : PoolStep items f s s') : PoolInv items f k s' := by
  cases hstep with
  | claim w hw hlt =>
    have hwlen : w < s.workers.length := (List.getElem?_eq_some.mp hw).1
    constructor
    all_goals dsimp only
    · exact hs.len_res
    · simpa using hs.len_w
    · exact hs.res_correct
    · intro i hci hin
      exact hs.res_unclaimed i (by omega) hin
    · intro j i hj
      by_cases hjw : j = w
      · subst hjw
        rw [List.getElem?_set_eq_of_lt _ hwlen] at hj
        cases hj
        exact ⟨hlt, by omega⟩
      · rw [List.getElem?_set_ne (fun h => hjw h.symm)] at hj
        have := hs.busy_lt j i hj
        exact ⟨this.1, by omega⟩
    · intro j i hj
      by_cases hjw : j = w
      · subst hjw
        rw [List.getElem?_set_eq_of_lt _ hwlen] at hj
        cases hj
        exact hs.res_unclaimed s.cursor (le_refl _) hlt
      · rw [List.getElem?_set_ne (fun h => hjw h.symm)] at hj
        exact hs.busy_unwritten j i hj
    · intro j j' i hj hj'
      by_cases hjw : j = w <;> by_cases hjw' : j' = w
      · omega
      · subst hjw
        rw [List.getElem?_set_eq_of_lt _ hwlen] at hj
        cases hj
        rw [List.getElem?_set_ne (fun h => hjw' h.symm)] at hj'
        have := hs.busy_lt j' s.cursor hj'
        omega
      · subst hjw'
        rw [List.getElem?_set_eq_of_lt _ hwlen] at hj'
        cases hj'
        rw [List.getElem?_set_ne (fun h => hjw h.symm)] at hj
        have := hs.busy_lt j s.cursor hj
        omega
      · rw [List.getElem?_set_ne (fun h => hjw h.symm)] at hj
        rw [List.getElem?_set_ne (fun h => hjw' h.symm)] at hj'
        exact hs.busy_unique j j' i hj hj'
    · intro i hin hci
      by_cases hic : i < s.cursor
      · rcases hs.claimed_covered i hin hic with hres | ⟨w', hw'⟩
        · exact Or.inl hres
        · refine Or.inr ⟨w', ?_⟩
          have hne : w' ≠ w := by
            intro h
            subst h
            rw [hw] at hw'
            cases hw'
          rw [List.getElem?_set_ne (fun h => hne h.symm)]
          exact hw'
      · have : i = s.cursor := by omega
        subst this
        refine Or.inr ⟨w, ?_⟩
        rw [List.getElem?_set_eq_of_lt _ hwlen]
    · intro j hj
      by_cases hjw : j = w
      · subst hjw
        rw [List.getElem?_set_eq_of_lt _ hwlen] at hj
        cases hj
      · rw [List.getElem?_set_ne (fun h => hjw h.symm)] at hj
        have := hs.done_over j hj
        omega
  | retire w hw hge =>
    have hwlen : w < s.workers.length := (List.getElem?_eq_some.mp hw).1
    constructor
    all_goals dsimp only
    · exact hs.len_res
    · simpa using hs.len_w
    · exact hs.res_correct
    · intro i hci hin
      exact hs.res_unclaimed i (by omega) hin
    · intro j i hj
      by_cases hjw : j = w
      · subst hjw
        rw [List.getElem?_set_eq_of_lt _ hwlen] at hj
        cases hj
      · rw [List.getElem?_set_ne (fun h => hjw h.symm)] at hj
        have := hs.busy_lt j i hj
        exact ⟨this.1, by omega⟩
    · intro j i hj
      by_cases hjw : j = w
      · subst hjw
        rw [List.getElem?_set_eq_of_lt _ hwlen] at hj
        cases hj
      · rw [List.getElem?_set_ne (fun h => hjw h.symm)] at hj
        exact hs.busy_unwritten j i hj
    · intro j j' i hj hj'
      by_cases hjw : j = w
      · subst hjw
        rw [List.getElem?_set_eq_of_lt _ hwlen] at hj
        cases hj
      · by_cases hjw' : j' = w
        · subst hjw'
          rw [List.getElem?_set_eq_of_lt _ hwlen] at hj'
          cases hj'
        · rw [List.getElem?_set_ne (fun h => hjw h.symm)] at hj
          rw [List.getElem?_set_ne (fun h => hjw' h.symm)] at hj'
          exact hs.busy_unique j j' i hj hj'
    · intro i hin hci
      have hic : i < s.cursor := by omega
      rcases hs.claimed_covered i hin hic with hres | ⟨w', hw'⟩
      · exact Or.inl hres
      · refine Or.inr ⟨w', ?_⟩
        have hne : w' ≠ w := by
          intro h
          subst h
          rw [hw] at hw'
          cases hw'
        rw [List.getElem?_set_ne (fun h => hne h.symm)]
        exact hw'
    · intro j hj
      by_cases hjw : j = w
      · omega
      · rw [List.getElem?_set_ne (fun h => hjw h.symm)] at hj
        have := hs.done_over j hj
        omega
  | finish w i a hw ha =>
    have hwlen : w < s.workers.length := (List.getElem?_eq_some.mp hw).1
    have hin : i < items.length := (hs.busy_lt w i hw).1
    have hilen : i < s.result.length := by
      rw [hs.len_res]; exact hin
    constructor
    all_goals dsimp only
    · simpa using hs.len_res
    · simpa using hs.len_w
    · intro j b hj
      by_cases hji : j = i
      · subst hji
        rw [List.getElem?_set_eq_of_lt _ hilen] at hj
        cases hj
        exact ⟨a, ha, rfl⟩
      · rw [List.getElem?_set_ne (fun h => hji h.symm)] at hj
        exact hs.res_correct j b hj
    · intro j hcj hjn
      have hj : j ≠ i := by
        have := (hs.busy_lt w i hw).2
        omega
      rw [List.getElem?_set_ne (fun h => hj h.symm)]
      exact hs.res_unclaimed j hcj hjn
    · intro j i' hj
      by_cases hjw : j = w
      · subst hjw
        rw [List.getElem?_set_eq_of_lt _ hwlen] at hj
        cases hj
      · rw [List.getElem?_set_ne (fun h => hjw h.symm)] at hj
        exact hs.busy_lt j i' hj
    · intro j i' hj
      by_cases hjw : j = w
      · subst hjw
        rw [List.getElem?_set_eq_of_lt _ hwlen] at hj
        cases hj
      · rw [List.getElem?_set_ne (fun h => hjw h.symm)] at hj
        have hact : i' ≠ i := by
          intro h
          subst h
          exact hjw (hs.busy_unique j w i' hj hw)
        rw [List.getElem?_set_ne (fun h => hact h.symm)]
        exact hs.busy_unwritten j i' hj
    · intro j j' i' hj hj'
      by_cases hjw : j = w
      · subst hjw
        rw [List.getElem?_set_eq_of_lt _ hwlen] at hj
        cases hj
      · by_cases hjw' : j' = w
        · subst hjw'
          rw [List.getElem?_set_eq_of_lt _ hwlen] at hj'
          cases hj'
        · rw [List.getElem?_set_ne (fun h => hjw h.symm)] at hj
          rw [List.getElem?_set_ne (fun h => hjw' h.symm)] at hj'
          exact hs.busy_unique j j' i' hj hj'
    · intro j hjn hjc
      by_cases hji : j = i
      · subst hji
        refine Or.inl ⟨f a j, ?_⟩
        rw [List.getElem?_set_eq_of_lt _ hilen]
      · rcases hs.claimed_covered j hjn hjc with hres | ⟨w', hw'⟩
        · rcases hres with ⟨b, hb⟩
          refine Or.inl ⟨b, ?_⟩
          rw [List.getElem?_set_ne (fun h => hji h.symm)]
          exact hb
        · have hne : w' ≠ w := by
            intro h
            subst h
            rw [hw] at hw'
            cases hw'
            exact hji rfl
          refine Or.inr ⟨w', ?_⟩
          rw [List.getElem?_set_ne (fun h => hne h.symm)]
          exact hw'
    · intro j hj
      by_cases hjw : j = w
      · subst hjw
        rw [List.getElem?_set_eq_of_lt _ hwlen] at hj
        cases hj
      · rw [List.getElem?_set_ne (fun h => hjw h.symm)] at hj
        exact hs.done_over j hj

theorem poolReach_inv {items : List α} {f : α → Nat → β} {k : Nat} {s s' : PoolState β}
    (hs : PoolInv items f k s) (hr : PoolReach items f s s') : PoolInv items f k s' := by
  induction hr with
  | refl => exact hs
  | tail _ hstep ih => exact poolStep_inv ih hstep

theorem spawnedWorkers_pos {limit : Int} {n : Nat} (hn : n ≠ 0) :
    1 ≤ spawnedWorkers limit n := by
  unfold spawnedWorkers numWorkers safeLimit
  rw [if_neg hn]
  have h1 : (1 : Int) ≤ max 1 limit := le_max_left 1 limit
  have : 1 ≤ (max 1 limit).toNat := by omega
  have : 1 ≤ n := by omega
  omega

theorem pool_done_result {α β : Type} {items : List α} {f : α → Nat → β} {limit : Int}
    {s : PoolState β}
    (hr : PoolReach items f (mapLimitInit β items.length limit) s) (hd : PoolDone s) :
    s.result = expectedResults f items := by
  have hinv := poolReach_inv (poolInv_init items f limit) hr
  apply List.ext_getElem?
  intro i
  rw [expectedResults_getElem?]
  by_cases hin : i < items.length
  · have ha : items[i]? = some items[i] := List.getElem?_eq_getElem hin
    have hn0 : items.length ≠ 0 := by omega
    have hk : 1 ≤ spawnedWorkers limit items.length := spawnedWorkers_pos hn0
    have h0 : 0 < s.workers.length := by
      rw [hinv.len_w]; omega
    have hst : s.workers[0]? = some s.workers[0] := List.getElem?_eq_getElem h0
    have hmem : s.workers[0] ∈ s.workers := List.getElem?_mem hst
    have hdone : s.workers[0] = WStatus.done := hd _ hmem
    rw [hdone] at hst
    have hover : items.length < s.cursor := hinv.done_over 0 hst
    rcases hinv.claimed_covered i hin (by omega) with ⟨b, hb⟩ | ⟨w', hw'⟩
    · obtain ⟨a', ha', hba⟩ := hinv.res_correct i b hb
      rw [ha] at ha'
      cases ha'
      rw [hb, ha, hba]
      rfl
    · exfalso
      have hmem' : WStatus.busy i ∈ s.workers := List.getElem?_mem hw'
      have := hd _ hmem'
      cases this
  · have hnone : s.result[i]? = none := by
      apply List.getElem?_eq_none
      rw [hinv.len_res]; omega
    have hnone2 : items[i]? = none := List.getElem?_eq_none (by omega)
    rw [hnone, hnone2]
    rfl

/-- C5: for every items list, concurrency limit and worker, a finished pool's
result array holds the worker's output for items[i] at every index i (input
order preserved regardless of completion order); every reachable state keeps
the spawned worker count min(limit, length) (for limits at least 1 on
non-empty input), never lets two workers hold the same index, and only ever
stores the worker's output for the slot's own index, so each item is claimed
and processed exactly once. -/
theorem mapLimit_result_ordered_exactly_once {α β : Type} (items : List α) (limit : Int)
    (f : α → Nat → β) (s t : PoolState β)
    (hs : PoolReach items f (mapLimitInit β items.length limit) s) (hd : PoolDone s)
    (ht : PoolReach items f (mapLimitInit β items.length limit) t) :
    s.result = expectedResults f items ∧
    (∀ (i : Nat) (a : α), items[i]? = some a → s.result[i]? = some (some (f a i))) ∧
    (items ≠ [] → 1 ≤ limit → t.workers.length = min limit.toNat items.length) ∧
    (∀ w w' i : Nat, t.workers[w]? = some (WStatus.busy i) →
      t.workers[w']? = some (WStatus.busy i) → w = w') ∧
    (∀ (i : Nat) (b : β), t.result[i]? = some (some b) →
      ∃ a, items[i]? = some a ∧ b = f a i) := by
  have hres := pool_done_result hs hd
  have hinvt := poolReach_inv (poolInv_init items f limit) ht
  refine ⟨hres, ?_, ?_, hinvt.busy_unique, hinvt.res_correct⟩
  · intro i a ha
    rw [hres, expectedResults_getElem?, ha]
    rfl
  · intro hne hlim
    rw [hinvt.len_w]
    have hn : items.length ≠ 0 := by
      intro h
      exact hne (List.length_eq_zero.mp h)
    unfold spawnedWorkers numWorkers safeLimit
    rw [if_neg hn, max_eq_right hlim]

/-- Witness for C5 at items = [10, 20], limit = 3, worker (a, i) to a + i,
run to completion by a single worker while the second worker retires. -/
theorem mapLimit_result_ordered_exactly_once_witness :
    (⟨4, [some 10, some 21], [WStatus.done, WStatus.done]⟩ : PoolState Nat).result =
      expectedResults (fun a i => a + i) [10, 20] := by
  have h1 : PoolStep [10, 20] (fun a i => a + i) (mapLimitInit Nat 2 3)
      ⟨1, [none, none], [WStatus.busy 0, WStatus.idle]⟩ :=
    PoolStep.claim _ 0 (by decide) (by decide)
  have h2 : PoolStep [10, 20] (fun a i => a + i)
      ⟨1, [none, none], [WStatus.busy 0, WStatus.idle]⟩
      ⟨1, [some 10, none], [WStatus.idle, WStatus.idle]⟩ :=
    PoolStep.finish _ 0 0 10 (by decide) (by decide)
  have h3 : PoolStep [10, 20] (fun a i => a + i)
      ⟨1, [some 10, none], [WStatus.idle, WStatus.idle]⟩
      ⟨2, [some 10, none], [WStatus.busy 1, WStatus.idle]⟩ :=
    PoolStep.claim _ 0 (by decide) (by decide)
  have h4 : PoolStep [10, 20] (fun a i => a + i)
      ⟨2, [some 10, none], [WStatus.busy 1, WStatus.idle]⟩
      ⟨2, [some 10, some 21], [WStatus.idle, WStatus.idle]⟩ :=
    PoolStep.finish _ 0 1 20 (by decide) (by decide)
  have h5 : PoolStep [10, 20] (fun a i => a + i)
      ⟨2, [some 10, some 21], [WStatus.idle, WStatus.idle]⟩
      ⟨3, [some 10, some 21], [WStatus.done, WStatus.idle]⟩ :=
    PoolStep.retire _ 0 (by decide) (by decide)
  have h6 : PoolStep [10, 20] (fun a i => a + i)
      ⟨3, [some 10, some 21], [WStatus.done, WStatus.idle]⟩
      ⟨4, [some 10, some 21], [WStatus.done, WStatus.done]⟩ :=
    PoolStep.retire _ 1 (by decide) (by decide)
  have hr : PoolReach [10, 20] (fun a i => a + i) (mapLimitInit Nat 2 3)
      (⟨4, [some 10, some 21], [WStatus.done, WStatus.done]⟩ : PoolState Nat) :=
    Relation.ReflTransGen.tail (Relation.ReflTransGen.tail (Relation.ReflTransGen.tail
      (Relation.ReflTransGen.tail (Relation.ReflTransGen.tail
        (Relation.ReflTransGen.tail Relation.ReflTransGen.refl h1) h2) h3) h4) h5) h6
  have hd : PoolDone
      (⟨4, [some 10, some 21], [WStatus.done, WStatus.done]⟩ : PoolState Nat) := by
    intro w hw
    simp only [List.mem_cons, List.not_mem_nil, or_false] at hw
    rcases hw with h | h <;> exact h
  exact (mapLimit_result_ordered_exactly_once [10, 20] 3 (fun a i => a + i) _ _ hr hd hr).1

/-- C10: mapLimit is total over its limit argument: Math.max(1, limit) clamps
every limit (zero and negative included) so a non-empty items list spawns at
least one worker, and any completed run still fills the whole result array;
an empty items list takes the early-return path, spawning no workers and
resolving at once to the empty array. -/
theorem mapLimit_total_over_limit {α β : Type} (items : List α) (limit : Int)
    (f : α → Nat → β) (s : PoolState β)
    (hs : PoolReach items f (mapLimitInit β items.length limit) s) (hd : PoolDone s) :
    (items ≠ [] → 1 ≤ spawnedWorkers limit items.length) ∧
    s.result = expectedResults f items ∧
    spawnedWorkers limit 0 = 0 ∧
    mapLimitInit β 0 limit = ⟨0, [], []⟩ ∧
    PoolDone (mapLimitInit β 0 limit) := by
  refine ⟨?_, pool_done_result hs hd, ?_, ?_, ?_⟩
  · intro hne
    apply spawnedWorkers_pos
    intro h
    exact hne (List.length_eq_zero.mp h)
  · simp [spawnedWorkers]
  · simp [mapLimitInit, spawnedWorkers]
  · intro w hw
    simp [mapLimitInit, spawnedWorkers] at hw

/-- Witness for C10 at items = [5], limit = 0 (clamped to one worker), worker
(a, i) to 2 * a + i. -/
theorem mapLimit_total_over_limit_witness :
    (⟨2, [some 10], [WStatus.done]⟩ : PoolState Nat).result =
      expectedResults (fun a i => 2 * a + i) [5] := by
  have h1 : PoolStep [5] (fun a i => 2 * a + i) (mapLimitInit Nat 1 0)
      ⟨1, [none], [WStatus.busy 0]⟩ :=
    PoolStep.claim _ 0 (by decide) (by decide)
  have h2 : PoolStep [5] (fun a i => 2 * a + i)
      ⟨1, [none], [WStatus.busy 0]⟩ ⟨1, [some 10], [WStatus.idle]⟩ :=
    PoolStep.finish _ 0 0 5 (by decide) (by decide)
  have h3 : PoolStep [5] (fun a i => 2 * a + i)
      ⟨1, [some 10], [WStatus.idle]⟩ ⟨2, [some 10], [WStatus.done]⟩ :=
    PoolStep.retire _ 0 (by decide) (by decide)
  have hr : PoolReach [5] (fun a i => 2 * a + i) (mapLimitInit Nat 1 0)
      (⟨2, [some 10], [WStatus.done]⟩ : PoolState Nat) :=
    Relation.ReflTransGen.tail (Relation.ReflTransGen.tail
      (Relation.ReflTransGen.tail Relation.ReflTransGen.refl h1) h2) h3
  have hd : PoolDone (⟨2, [some 10], [WStatus.done]⟩ : PoolState Nat) := by
    intro w hw
    simp only [List.mem_cons, List.not_mem_nil, or_false] at hw
    exact hw
  exact (mapLimit_total_over_limit [5] 0 (fun a i => 2 * a + i) _ hr hd).2.1

theorem teacherKeyParts_mem_ne_nil {l p : List Char} (hp : p ∈ teacherKeyParts l) :
    p ≠ [] := by
  have := List.of_mem_filter hp
  simpa using this

theorem teacherKeyParts_of_norm_nil {l : List Char} (h : teacherKeyNorm l = []) :
    teacherKeyParts l = [] := by
  simp [teacherKeyParts, h, splitSpace, splitSpaceAux]

/-- C3: teacherMatchKey lowercases, replaces dots with spaces, collapses
whitespace and trims, splits into tokens with the first token as surname, and
returns the surname alone when no further tokens remain, the surname plus the
initials of tokens two and three when at least three tokens remain, and
otherwise the surname plus the first two letters of the concatenated
remainder; consequently the full name, the dotted initials form, the
lowercase spaced form and the uppercase spaced form of the same person all
map to one key. -/
theorem teacherMatchKey_characterization :
    (∀ s : String,
      teacherMatchKey s =
        (match teacherKeyParts s.data with
          | [] => ("" : String)
          | [surname] => ⟨surname⟩
          | [surname, p1] => ⟨surname ++ ':' :: p1.take 2⟩
          | surname :: p1 :: p2 :: _ => ⟨surname ++ ':' :: (p1.take 1 ++ p2.take 1)⟩)) ∧
    teacherMatchKey "Иванов Андрей Борисович" = "иванов:аб" ∧
    teacherMatchKey "Иванов А.Б." = "иванов:аб" ∧
    teacherMatchKey "иванов а б" = "иванов:аб" ∧
    teacherMatchKey "ИВАНОВ А. Б." = "иванов:аб" := by
  refine ⟨?_, by decide, by decide, by decide, by decide⟩
  intro s
  by_cases hn : teacherKeyNorm s.data = []
  · rw [teacherKeyParts_of_norm_nil hn]
    simp [teacherMatchKey, teacherMatchKeyChars, hn, teacherKeyParts_of_norm_nil hn]
  · cases h : teacherKeyParts s.data with
    | nil =>
      simp [teacherMatchKey, teacherMatchKeyChars, hn, h]
    | cons surname rest =>
      cases rest with
      | nil =>
        simp [teacherMatchKey, teacherMatchKeyChars, hn, h]
      | cons p1 rest2 =>
        have hp1 : p1 ≠ [] :=
          teacherKeyParts_mem_ne_nil (l := s.data) (by rw [h]; simp)
        cases rest2 with
        | nil =>
          simp [teacherMatchKey, teacherMatchKeyChars, hn, h, hp1]
        | cons p2 rest3 =>
          have hflat : (p1 :: p2 :: rest3).flatten ≠ [] := by
            simp only [List.flatten_cons]
            intro hcontra
            exact hp1 (List.append_eq_nil.mp hcontra).1
          simp only [teacherMatchKey, teacherMatchKeyChars, hn, h, hflat]
          have hnc : ¬(p1 = [] ∧ p2 = [] ∧ ∀ l ∈ rest3, l = []) := fun hc => hp1 hc.1
          simp [hn, hnc]

theorem normTeacherCode_idem (c : Option String) :
    normTeacherCode (normTeacherCode c) = normTeacherCode c := by
  cases c with
  | none => rfl
  | some s =>
    by_cases h : s = "" <;> simp [normTeacherCode, h]

theorem teacherScore_stored (t : TeacherRec) :
    teacherScore ⟨t.name, normTeacherCode t.code⟩ = teacherScore t := by
  simp [teacherScore, normTeacherCode_idem]

theorem findAssoc_setAssoc_self (k : String) (v : TeacherRec) (m : List (String × TeacherRec)) :
    findAssoc k (setAssoc k v m) = some v := by
  induction m with
  | nil => simp [setAssoc, findAssoc]
  | cons kv rest ih =>
    by_cases h : kv.1 = k
    · simp [setAssoc, findAssoc, h]
    · simp [setAssoc, findAssoc, h, ih]

theorem findAssoc_setAssoc_ne (k k' : String) (v : TeacherRec)
    (m : List (String × TeacherRec)) (h : k ≠ k') :
    findAssoc k' (setAssoc k v m) = findAssoc k' m := by
  induction m with
  | nil => simp [setAssoc, findAssoc, h]
  | cons kv rest ih =>
    by_cases hk : kv.1 = k
    · simp [setAssoc, findAssoc, hk, h]
    · simp only [setAssoc, hk, if_false, findAssoc]
      by_cases hk' : kv.1 = k' <;> simp [findAssoc, hk', ih]

theorem dedup_step_sees (m : List (String × TeacherRec)) (t : TeacherRec)
    (hk : teacherMatchKey t.name ≠ "") :
    ∃ r₀, findAssoc (teacherMatchKey t.name) (dedupTeacherStep m t) = some r₀ ∧
      teacherScore t ≤ teacherScore r₀ := by
  unfold dedupTeacherStep
  rw [if_neg hk]
  cases hfind : findAssoc (teacherMatchKey t.name) m with
  | none =>
    refine ⟨⟨t.name, normTeacherCode t.code⟩, ?_, ?_⟩
    · exact findAssoc_setAssoc_self _ _ _
    · rw [teacherScore_stored]
  | some prev =>
    dsimp only
    by_cases hgt : teacherScore t > teacherScore prev
    · rw [if_pos hgt]
      refine ⟨⟨t.name, normTeacherCode t.code⟩, findAssoc_setAssoc_self _ _ _, ?_⟩
      rw [teacherScore_stored]
    · rw [if_neg hgt]
      exact ⟨prev, hfind, by omega⟩

theorem dedup_step_monotone (m : List (String × TeacherRec)) (t' : TeacherRec)
    (k : String) (r₀ : TeacherRec) (h : findAssoc k m = some r₀) :
    ∃ r₁, findAssoc k (dedupTeacherStep m t') = some r₁ ∧
      teacherScore r₀ ≤ teacherScore r₁ := by
  unfold dedupTeacherStep
  by_cases hk : teacherMatchKey t'.name = ""
  · rw [if_pos hk]
    exact ⟨r₀, h, le_refl _⟩
  · rw [if_neg hk]
    by_cases hkk : teacherMatchKey t'.name = k
    · rw [hkk, h]
      dsimp only
      by_cases hgt : teacherScore t' > teacherScore r₀
      · rw [if_pos hgt]
        refine ⟨⟨t'.name, normTeacherCode t'.code⟩, ?_, ?_⟩
        · rw [← hkk]
          exact findAssoc_setAssoc_self _ _ _
        · rw [teacherScore_stored]
          omega
      · rw [if_neg hgt]
        exact ⟨r₀, h, le_refl _⟩
    · cases hfind : findAssoc (teacherMatchKey t'.name) m with
      | none =>
        refine ⟨r₀, ?_, le_refl _⟩
        rw [findAssoc_setAssoc_ne _ _ _ _ hkk]
        exact h
      | some prev =>
        dsimp only
        by_cases hgt : teacherScore t' > teacherScore prev
        · rw [if_pos hgt]
          refine ⟨r₀, ?_, le_refl _⟩
          rw [findAssoc_setAssoc_ne _ _ _ _ hkk]
          exact h
        · rw [if_neg hgt]
          exact ⟨r₀, h, le_refl _⟩

theorem dedup_fold_monotone (ts : List TeacherRec) (m : List (String × TeacherRec))
    (k : String) (r₀ : TeacherRec) (h : findAssoc k m = some r₀) :
    ∃ r₁, findAssoc k (ts.foldl dedupTeacherStep m) = some r₁ ∧
      teacherScore r₀ ≤ teacherScore r₁ := by
  induction ts generalizing m r₀ with
  | nil => exact ⟨r₀, h, le_refl _⟩
  | cons u rest ih =>
    obtain ⟨r₁, h₁, hle₁⟩ := dedup_step_monotone m u k r₀ h
    obtain ⟨r₂, h₂, hle₂⟩ := ih (dedupTeacherStep m u) r₁ h₁
    exact ⟨r₂, h₂, by omega⟩

theorem dedup_fold_maximal (ts : List TeacherRec) (m : List (String × TeacherRec))
    (k : String) (r : TeacherRec) (hk : k ≠ "")
    (h : findAssoc k (ts.foldl dedupTeacherStep m) = some r) :
    ∀ u ∈ ts, teacherMatchKey u.name = k → teacherScore u ≤ teacherScore r := by
  induction ts generalizing m with
  | nil => intro u hu; cases hu
  | cons v rest ih =>
    intro u hu hku
    rcases List.mem_cons.mp hu with rfl | hmem
    · have hvk : teacherMatchKey u.name ≠ "" := by rw [hku]; exact hk
      obtain ⟨r₀, h₀, hle₀⟩ := dedup_step_sees m u hvk
      rw [hku] at h₀
      obtain ⟨r₁, h₁, hle₁⟩ := dedup_fold_monotone rest (dedupTeacherStep m u) k r₀ h₀
      rw [List.foldl_cons] at h
      rw [h] at h₁
      cases h₁
      omega
    · exact ih (dedupTeacherStep m v) (by rw [List.foldl_cons] at h; exact h) u hmem hku

/-- C4 counterexample: two records share the key, their scores tie, the later
one carries a non-null code, yet the resolver keeps the first, codeless
record — the claim's tie rule does not hold on the code. -/
theorem getActiveTeachers_tie_counterexample :
    teacherMatchKey "petrov abcdefgh" = "petrov:ab" ∧
    teacherMatchKey "petrov abc" = "petrov:ab" ∧
    teacherScore ⟨"petrov abcdefgh", none⟩ = teacherScore ⟨"petrov abc", some "9"⟩ ∧
    findAssoc "petrov:ab"
      (resolveTeachers [⟨"petrov abcdefgh", none⟩, ⟨"petrov abc", some "9"⟩]) =
      some ⟨"petrov abcdefgh", none⟩ := by decide

/-- C4 amended: when records share an identity key the resolver keeps the one
with the strictly higher score (score = name length + 5 if a code is present),
replacing only on a strictly higher score, so on a score tie the record seen
first stays even when the later record carries a non-null code; the kept
record's score is maximal among all same-key records; and on the spec's
concrete pair the fuller record with code 42 is kept in either arrival
order. -/
theorem getActiveTeachers_dedup_score (ts : List TeacherRec) (t r : TeacherRec)
    (hkey : teacherMatchKey t.name ≠ "")
    (hfound : findAssoc (teacherMatchKey t.name) (resolveTeachers ts) = some r) :
    (teacherScore t ≤ teacherScore r →
      findAssoc (teacherMatchKey t.name) (resolveTeachers (ts ++ [t])) = some r) ∧
    (teacherScore r < teacherScore t →
      findAssoc (teacherMatchKey t.name) (resolveTeachers (ts ++ [t])) =
        some ⟨t.name, normTeacherCode t.code⟩) ∧
    (∀ u ∈ ts, teacherMatchKey u.name = teacherMatchKey t.name →
      teacherScore u ≤ teacherScore r) ∧
    findAssoc "иванов:аб"
      (resolveTeachers
        [⟨"Иванов А.Б.", none⟩, ⟨"Иванов Андрей Борисович", some "42"⟩]) =
      some ⟨"Иванов Андрей Борисович", some "42"⟩ ∧
    findAssoc "иванов:аб"
      (resolveTeachers
        [⟨"Иванов Андрей Борисович", some "42"⟩, ⟨"Иванов А.Б.", none⟩]) =
      some ⟨"Иванов Андрей Борисович", some "42"⟩ := by
  have happ : resolveTeachers (ts ++ [t]) = dedupTeacherStep (resolveTeachers ts) t := by
    simp [resolveTeachers, List.foldl_append]
  refine ⟨?_, ?_, ?_, by decide, by decide⟩
  · intro hle
    rw [happ]
    unfold dedupTeacherStep
    rw [if_neg hkey, hfound]
    dsimp only
    rw [if_neg (by omega : ¬teacherScore t > teacherScore r)]
    exact hfound
  · intro hlt
    rw [happ]
    unfold dedupTeacherStep
    rw [if_neg hkey, hfound]
    dsimp only
    rw [if_pos (by omega : teacherScore t > teacherScore r)]
    exact findAssoc_setAssoc_self _ _ _
  · exact dedup_fold_maximal ts [] (teacherMatchKey t.name) r hkey hfound

/-- Witness for the C4 amended theorem on the spec's own pair of records: the
later, strictly higher-scoring record with code 42 replaces the incumbent. -/
theorem getActiveTeachers_dedup_score_witness :
    findAssoc (teacherMatchKey "Иванов Андрей Борисович")
      (resolveTeachers
        [⟨"Иванов А.Б.", none⟩, ⟨"Иванов Андрей Борисович", some "42"⟩]) =
      some ⟨"Иванов Андрей Борисович", normTeacherCode (some "42")⟩ :=
  ((getActiveTeachers_dedup_score [⟨"Иванов А.Б.", none⟩]
      ⟨"Иванов Андрей Борисович", some "42"⟩ ⟨"Иванов А.Б.", none⟩
      (by decide) (by decide)).2.1) (by decide)

set_option maxHeartbeats 1000000 in
theorem teacherLessonsOfCells_groupCode {teacherCode teacherField : Option String}
    {url : String} {st : DayState} {n : Int} :
    ∀ (idx : Nat) (cells : List Cell) (l : Lesson),
      l ∈ teacherLessonsOfCells teacherCode teacherField url st n idx cells →
      l.groupCode = makeSyntheticGroupCode l.groupName teacherCode l.columnIndex := by
  intro idx cells
  induction cells generalizing idx with
  | nil => intro l hl; cases hl
  | cons td rest ih =>
    intro l hl
    unfold teacherLessonsOfCells at hl
    by_cases hnul : td.nulClass
    · rw [if_pos hnul] at hl
      exact ih (idx + 1) l hl
    · rw [if_neg hnul] at hl
      dsimp only at hl
      cases hsub : (extractTeacherCellPayload td).subject with
      | none =>
        rw [hsub] at hl
        exact ih (idx + 1) l hl
      | some subject =>
        rw [hsub] at hl
        cases hdate : st.date with
        | none =>
          rw [hdate] at hl
          exact ih (idx + 1) l hl
        | some d =>
          rw [hdate] at hl
          dsimp only at hl
          rcases List.mem_cons.mp hl with rfl | hmem
          · rfl
          · exact ih (idx + 1) l hmem

theorem processTeacherRow_groupCode {teacherCode teacherField : Option String}
    {url : String} {st : DayState} {cells : List Cell} {l : Lesson}
    (hl : l ∈ (processTeacherRow teacherCode teacherField url st cells).2) :
    l.groupCode = makeSyntheticGroupCode l.groupName teacherCode l.columnIndex := by
  unfold processTeacherRow at hl
  cases cells with
  | nil => cases hl
  | cons c0 rest =>
    dsimp only at hl
    cases hp : (parseDayCellHtml c0.innerHtml).date with
    | none =>
      rw [hp] at hl
      dsimp only at hl
      cases hnum : jsParseInt (cleanTextChars c0.textAll.data) with
      | none => rw [hnum] at hl; cases hl
      | some lessonNumber =>
        rw [hnum] at hl
        exact teacherLessonsOfCells_groupCode 0 rest l hl
    | some d =>
      rw [hp] at hl
      dsimp only at hl
      cases rest with
      | nil => cases hl
      | cons pairCell lessonCells =>
        dsimp only at hl
        cases hnum : jsParseInt (cleanTextChars pairCell.textAll.data) with
        | none => rw [hnum] at hl; cases hl
        | some lessonNumber =>
          rw [hnum] at hl
          exact teacherLessonsOfCells_groupCode 0 lessonCells l hl

theorem syntheticGroupCode_no_digit_collision (tc : Option String) (ci : Nat)
    (g : String) (_hne : g ≠ "") (hdig : ∀ c ∈ g.data, c.isDigit) :
    makeSyntheticGroupCode none tc ci ≠ g := by
  intro heq
  have hdata : (makeSyntheticGroupCode none tc ci).data =
      't' :: 'p' :: ':' :: (makeSyntheticGroupCode.tcOr tc ++ ":" ++ toString ci).data := by
    show ("tp:" ++ (makeSyntheticGroupCode.tcOr tc) ++ ":" ++ toString ci).data = _
    simp [String.data_append]
  rw [heq] at hdata
  have : 't' ∈ g.data := by rw [hdata]; simp
  have := hdig 't' this
  simp [Char.isDigit] at this

/-- C8 counterexample: a teacher-page row with no resolvable group name gets
groupCode "tp:192:1", which is not of the claimed form with the
"teacher-scoped:" marker. -/
theorem syntheticGroupCode_form_counterexample :
    (processTeacherRow (some "192") (some "Иванов А.Б.") "u" ⟨none, none⟩
        [⟨"13.02.2026<br>Пт-1", false, "", "", "", "", "", "", ""⟩,
         ⟨"2", false, "", "", "", "", "2", "2", "2"⟩,
         ⟨"", false, "", "214", "Математика", "", "", "", ""⟩]).2 =
      [{ groupCode := "tp:192:1", groupName := none, date := "2026-02-13",
         dayLabel := some "Пт-1", lessonNumber := 2, columnIndex := 1,
         subject := "Математика", room := some "214",
         teacher := some "Иванов А.Б.", sourceUrl := "u" }] ∧
    strStartsWith "teacher-scoped:" "tp:192:1" = false := by decide

/-- C8 amended: every teacher-page lesson row with no resolvable group name
gets the synthetic groupCode tp:(teacherCode or "unknown"):(columnIndex) —
prefix "tp:", not "teacher-scoped:" — and that code never collides with a
real group code, which is always a non-empty string of digits taken from the
roster link pattern. -/
theorem syntheticGroupCode_form_and_no_collision
    (teacherCode teacherField : Option String) (url : String) (st : DayState)
    (cells : List Cell) (l : Lesson)
    (hl : l ∈ (processTeacherRow teacherCode teacherField url st cells).2)
    (hng : l.groupName = none) :
    l.groupCode =
      "tp:" ++ makeSyntheticGroupCode.tcOr teacherCode ++ ":" ++ toString l.columnIndex ∧
    ∀ g : String, g ≠ "" → (∀ c ∈ g.data, c.isDigit) → l.groupCode ≠ g := by
  have hcode := processTeacherRow_groupCode hl
  rw [hng] at hcode
  constructor
  · rw [hcode]
    rfl
  · intro g hne hdig
    rw [hcode]
    exact syntheticGroupCode_no_digit_collision teacherCode l.columnIndex g hne hdig

/-- Witness for C8 at a concrete teacher-page row with teacher code 192 and
no group anchors in the lesson cell. -/
theorem syntheticGroupCode_form_and_no_collision_witness :
    ({ groupCode := "tp:192:1", groupName := none, date := "2026-02-13",
       dayLabel := some "Пт-1", lessonNumber := 2, columnIndex := 1,
       subject := "Математика", room := some "214",
       teacher := some "Иванов А.Б.", sourceUrl := "u" } : Lesson).groupCode =
      "tp:" ++ makeSyntheticGroupCode.tcOr (some "192") ++ ":" ++ toString (1 : Nat) ∧
    ({ groupCode := "tp:192:1", groupName := none, date := "2026-02-13",
       dayLabel := some "Пт-1", lessonNumber := 2, columnIndex := 1,
       subject := "Математика", room := some "214",
       teacher := some "Иванов А.Б.", sourceUrl := "u" } : Lesson).groupCode ≠ "238" := by
  have h := syntheticGroupCode_form_and_no_collision (some "192") (some "Иванов А.Б.") "u"
    ⟨none, none⟩
    [⟨"13.02.2026<br>Пт-1", false, "", "", "", "", "", "", ""⟩,
     ⟨"2", false, "", "", "", "", "2", "2", "2"⟩,
     ⟨"", false, "", "214", "Математика", "", "", "", ""⟩]
    { groupCode := "tp:192:1", groupName := none, date := "2026-02-13",
      dayLabel := some "Пт-1", lessonNumber := 2, columnIndex := 1,
      subject := "Математика", room := some "214",
      teacher := some "Иванов А.Б.", sourceUrl := "u" }
    (by decide) rfl
  exact ⟨h.1, h.2 "238" (by decide) (by decide)⟩

theorem groupLessonsOfCells_subject_date {gc gn url : String} {st : DayState} {n : Int} :
    ∀ (idx : Nat) (cells : List Cell) (l : Lesson),
      l ∈ groupLessonsOfCells gc gn url st n idx cells →
      l.subject ≠ "" ∧ st.date = some l.date := by
  intro idx cells
  induction cells generalizing idx with
  | nil => intro l hl; cases hl
  | cons td rest ih =>
    intro l hl
    unfold groupLessonsOfCells at hl
    by_cases hnul : td.nulClass
    · rw [if_pos hnul] at hl
      exact ih (idx + 1) l hl
    · rw [if_neg hnul] at hl
      dsimp only at hl
      by_cases hsub : extractSubjectFromCell td = ""
      · rw [if_pos hsub] at hl
        exact ih (idx + 1) l hl
      · rw [if_neg hsub] at hl
        cases hdate : st.date with
        | none =>
          rw [hdate] at hl
          have h2 := ih (idx + 1) l hl
          exact ⟨h2.1, hdate ▸ h2.2⟩
        | some d =>
          rw [hdate] at hl
          dsimp only at hl
          rw [List.mem_cons] at hl
          rcases hl with rfl | hmem
          · exact ⟨hsub, rfl⟩
          · have h2 := ih (idx + 1) l hmem
            exact ⟨h2.1, hdate ▸ h2.2⟩

theorem processGroupRow_subject_date {gc gn url : String} {st : DayState}
    {cells : List Cell} {l : Lesson}
    (hl : l ∈ (processGroupRow gc gn url st cells).2) :
    l.subject ≠ "" ∧ (processGroupRow gc gn url st cells).1.date = some l.date := by
  unfold processGroupRow at hl ⊢
  cases cells with
  | nil => cases hl
  | cons c0 rest =>
    dsimp only at hl ⊢
    cases hp : (parseDayCellHtml c0.innerHtml).date with
    | none =>
      rw [hp] at hl
      dsimp only at hl ⊢
      cases hnum : jsParseInt (cleanTextChars c0.textAll.data) with
      | none =>
        rw [hnum] at hl
        cases hl
      | some lessonNumber =>
        rw [hnum] at hl
        dsimp only at hl ⊢
        exact groupLessonsOfCells_subject_date 0 rest l hl
    | some d =>
      rw [hp] at hl
      dsimp only at hl ⊢
      cases rest with
      | nil => cases hl
      | cons pairCell lessonCells =>
        dsimp only at hl ⊢
        cases hnum : jsParseInt (cleanTextChars pairCell.textAll.data) with
        | none =>
          rw [hnum] at hl
          cases hl
        | some lessonNumber =>
          rw [hnum] at hl
          dsimp only at hl ⊢
          exact groupLessonsOfCells_subject_date 0 lessonCells l hl

/-- C6: a group schedule page is parsed with day-carry-forward (a date cell
updates the carried day, which applies to that row and all following rows
until a new date cell appears, and a row without a date cell leaves the carry
unchanged), slots with the nul marker class are skipped, and a lesson is
emitted only with a resolved date and a non-empty subject; the claim's
concrete page — date row 13.02.2026 with label Пт-1, lesson-number cell 2,
one filled slot and one nul slot — yields exactly one lesson dated 2026-02-13
with lessonNumber 2, rows before any date cell yield nothing, and a second
row without a date cell inherits 2026-02-13. -/
theorem fetchGroupLessons_row_parsing
    (gc gn url : String) (st : DayState) (cells : List Cell) (l : Lesson)
    (c0 : Cell) (rest : List Cell) :
    ((parseDayCellHtml c0.innerHtml).date = none →
      (processGroupRow gc gn url st (c0 :: rest)).1 = st) ∧
    (∀ d : String, (parseDayCellHtml c0.innerHtml).date = some d →
      (processGroupRow gc gn url st (c0 :: rest)).1 =
        ⟨some d, (parseDayCellHtml c0.innerHtml).dayLabel⟩) ∧
    (∀ (n : Int) (idx : Nat) (td : Cell) (tail : List Cell), td.nulClass = true →
      groupLessonsOfCells gc gn url st n idx (td :: tail) =
        groupLessonsOfCells gc gn url st n (idx + 1) tail) ∧
    (l ∈ (processGroupRow gc gn url st cells).2 →
      l.subject ≠ "" ∧ (processGroupRow gc gn url st cells).1.date = some l.date) ∧
    processGroupPage "238" "СА-21" "u"
      [[⟨"13.02.2026<br>Пт-1", false, "", "", "", "", "", "", ""⟩,
        ⟨"2", false, "", "", "", "", "2", "2", "2"⟩,
        ⟨"", false, "Математика", "214", "Иванов А.Б.", "", "", "", ""⟩,
        ⟨"", true, "", "", "", "", "", "", ""⟩]] =
      [{ groupCode := "238", groupName := some "СА-21", date := "2026-02-13",
         dayLabel := some "Пт-1", lessonNumber := 2, columnIndex := 1,
         subject := "Математика", room := some "214", teacher := some "Иванов А.Б.",
         sourceUrl := "u" }] ∧
    processGroupPage "238" "СА-21" "u"
      [[⟨"13.02.2026<br>Пт-1", false, "", "", "", "", "", "", ""⟩,
        ⟨"2", false, "", "", "", "", "2", "2", "2"⟩,
        ⟨"", false, "Математика", "214", "Иванов А.Б.", "", "", "", ""⟩],
       [⟨"3", false, "", "", "", "", "3", "3", "3"⟩,
        ⟨"", false, "Физика", "101", "Петров В.Г.", "", "", "", ""⟩]] =
      [{ groupCode := "238", groupName := some "СА-21", date := "2026-02-13",
         dayLabel := some "Пт-1", lessonNumber := 2, columnIndex := 1,
         subject := "Математика", room := some "214", teacher := some "Иванов А.Б.",
         sourceUrl := "u" },
       { groupCode := "238", groupName := some "СА-21", date := "2026-02-13",
         dayLabel := some "Пт-1", lessonNumber := 3, columnIndex := 1,
         subject := "Физика", room := some "101", teacher := some "Петров В.Г.",
         sourceUrl := "u" }] ∧
    processGroupPage "238" "СА-21" "u"
      [[⟨"2", false, "", "", "", "", "2", "2", "2"⟩,
        ⟨"", false, "Математика", "214", "Иванов А.Б.", "", "", "", ""⟩]] = [] := by
  refine ⟨?_, ?_, ?_, ?_, by decide, by decide, by decide⟩
  · intro hp
    unfold processGroupRow
    dsimp only
    rw [hp]
    dsimp only
    cases jsParseInt (cleanTextChars c0.textAll.data) <;> rfl
  · intro d hp
    unfold processGroupRow
    dsimp only
    rw [hp]
    dsimp only
    cases rest with
    | nil => rfl
    | cons pairCell lessonCells =>
      dsimp only
      cases jsParseInt (cleanTextChars pairCell.textAll.data) <;> rfl
  · intro n idx td tail hnul
    conv_lhs => unfold groupLessonsOfCells
    rw [if_pos hnul]
  · exact processGroupRow_subject_date

/-- Witness for C6: the carry state survives a dateless row, a date row sets
it, a nul slot contributes nothing, and the concrete example lesson is
emitted with a non-empty subject and the carried date. -/
theorem fetchGroupLessons_row_parsing_witness :
    (processGroupRow "238" "СА-21" "u" ⟨some "2026-02-13", some "Пт-1"⟩
        [⟨"3", false, "", "", "", "", "3", "3", "3"⟩,
         ⟨"", false, "Физика", "101", "Петров В.Г.", "", "", "", ""⟩]).1 =
      ⟨some "2026-02-13", some "Пт-1"⟩ ∧
    (processGroupRow "238" "СА-21" "u" ⟨none, none⟩
        [⟨"13.02.2026<br>Пт-1", false, "", "", "", "", "", "", ""⟩,
         ⟨"2", false, "", "", "", "", "2", "2", "2"⟩,
         ⟨"", false, "Математика", "214", "Иванов А.Б.", "", "", "", ""⟩]).1 =
      ⟨some "2026-02-13", some "Пт-1"⟩ ∧
    groupLessonsOfCells "238" "СА-21" "u" ⟨some "2026-02-13", some "Пт-1"⟩ 2 1
        [⟨"", true, "", "", "", "", "", "", ""⟩] =
      groupLessonsOfCells "238" "СА-21" "u" ⟨some "2026-02-13", some "Пт-1"⟩ 2 2 [] ∧
    ({ groupCode := "238", groupName := some "СА-21", date := "2026-02-13",
       dayLabel := some "Пт-1", lessonNumber := 2, columnIndex := 1,
       subject := "Математика", room := some "214", teacher := some "Иванов А.Б.",
       sourceUrl := "u" } : Lesson).subject ≠ "" := by
  have base := fetchGroupLessons_row_parsing "238" "СА-21" "u"
  refine ⟨?_, ?_, ?_, ?_⟩
  · exact (base ⟨some "2026-02-13", some "Пт-1"⟩ []
      { groupCode := "", groupName := none, date := "", dayLabel := none,
        lessonNumber := 0, columnIndex := 0, subject := "", room := none,
        teacher := none, sourceUrl := "" }
      ⟨"3", false, "", "", "", "", "3", "3", "3"⟩
      [⟨"", false, "Физика", "101", "Петров В.Г.", "", "", "", ""⟩]).1 (by decide)
  · exact ((base ⟨none, none⟩ []
      { groupCode := "", groupName := none, date := "", dayLabel := none,
        lessonNumber := 0, columnIndex := 0, subject := "", room := none,
        teacher := none, sourceUrl := "" }
      ⟨"13.02.2026<br>Пт-1", false, "", "", "", "", "", "", ""⟩
      [⟨"2", false, "", "", "", "", "2", "2", "2"⟩,
       ⟨"", false, "Математика", "214", "Иванов А.Б.", "", "", "", ""⟩]).2.1)
      "2026-02-13" (by decide)
  · exact ((base ⟨some "2026-02-13", some "Пт-1"⟩ []
      { groupCode := "", groupName := none, date := "", dayLabel := none,
        lessonNumber := 0, columnIndex := 0, subject := "", room := none,
        teacher := none, sourceUrl := "" }
      ⟨"", false, "", "", "", "", "", "", ""⟩ []).2.2.1)
      2 1 ⟨"", true, "", "", "", "", "", "", ""⟩ [] rfl
  · exact ((base ⟨none, none⟩
      [⟨"13.02.2026<br>Пт-1", false, "", "", "", "", "", "", ""⟩,
       ⟨"2", false, "", "", "", "", "2", "2", "2"⟩,
       ⟨"", false, "Математика", "214", "Иванов А.Б.", "", "", "", ""⟩]
      { groupCode := "238", groupName := some "СА-21", date := "2026-02-13",
        dayLabel := some "Пт-1", lessonNumber := 2, columnIndex := 1,
        subject := "Математика", room := some "214", teacher := some "Иванов А.Б.",
        sourceUrl := "u" }
      ⟨"", false, "", "", "", "", "", "", ""⟩ []).2.2.2.1 (by decide)).1

/-- C7: the retention sweep computes keepFromDate as today minus one day and
deletes exactly the active run's lessons with date strictly below it; lessons
with date at or after keepFromDate and lessons of other runs survive, and
nothing is added; for the spec's snapshot of 2026-02-10 through 2026-02-20
with today 2026-02-15, exactly the rows before 2026-02-14 are deleted while a
foreign-run row is untouched. -/
theorem cleanupOldLessons_retention (db : ScheduleDB) (today keep active : String)
    (hmeta : db.meta = some active)
    (hshift : shiftIsoDate today (-1) = some keep) :
    (cleanupOldLessons db today).2 = some keep ∧
    (cleanupOldLessons db today).1.lessons =
      db.lessons.filter
        (fun d => !(d.syncId = active && charListLt d.doc.date.data keep.data)) ∧
    (∀ d ∈ db.lessons, d.syncId ≠ active → d ∈ (cleanupOldLessons db today).1.lessons) ∧
    (∀ d ∈ db.lessons, charListLt d.doc.date.data keep.data = false →
      d ∈ (cleanupOldLessons db today).1.lessons) ∧
    (∀ d ∈ (cleanupOldLessons db today).1.lessons, d ∈ db.lessons) ∧
    shiftIsoDate "2026-02-15" (-1) = some "2026-02-14" ∧
    (cleanupOldLessons
      { groups := [], teachers := [],
        lessons := [⟨"r1", sampleLesson "2026-02-10"⟩, ⟨"r1", sampleLesson "2026-02-11"⟩,
          ⟨"r1", sampleLesson "2026-02-12"⟩, ⟨"r1", sampleLesson "2026-02-13"⟩,
          ⟨"r1", sampleLesson "2026-02-14"⟩, ⟨"r1", sampleLesson "2026-02-15"⟩,
          ⟨"r1", sampleLesson "2026-02-16"⟩, ⟨"r1", sampleLesson "2026-02-17"⟩,
          ⟨"r1", sampleLesson "2026-02-18"⟩, ⟨"r1", sampleLesson "2026-02-19"⟩,
          ⟨"r1", sampleLesson "2026-02-20"⟩, ⟨"r0", sampleLesson "2026-02-09"⟩],
        meta := some "r1", syncRuns := [], reminderLogs := [] }
      "2026-02-15").1.lessons =
      [⟨"r1", sampleLesson "2026-02-14"⟩, ⟨"r1", sampleLesson "2026-02-15"⟩,
       ⟨"r1", sampleLesson "2026-02-16"⟩, ⟨"r1", sampleLesson "2026-02-17"⟩,
       ⟨"r1", sampleLesson "2026-02-18"⟩, ⟨"r1", sampleLesson "2026-02-19"⟩,
       ⟨"r1", sampleLesson "2026-02-20"⟩, ⟨"r0", sampleLesson "2026-02-09"⟩] := by
  have hfil : (cleanupOldLessons db today).1.lessons =
      db.lessons.filter
        (fun d => !(d.syncId = active && charListLt d.doc.date.data keep.data)) := by
    simp only [cleanupOldLessons, hshift, deleteActiveLessonsOlderThan, hmeta]
  refine ⟨?_, hfil, ?_, ?_, ?_, by decide, by decide⟩
  · simp only [cleanupOldLessons, hshift]
  · intro d hd hsync
    rw [hfil]
    rw [List.mem_filter]
    refine ⟨hd, ?_⟩
    simp [hsync]
  · intro d hd hlt
    rw [hfil, List.mem_filter]
    refine ⟨hd, ?_⟩
    simp [hlt]
  · intro d hd
    rw [hfil, List.mem_filter] at hd
    exact hd.1

/-- Witness for C7 on the spec's concrete snapshot with today 2026-02-15. -/
theorem cleanupOldLessons_retention_witness :
    (cleanupOldLessons
      { groups := [], teachers := [],
        lessons := [⟨"r1", sampleLesson "2026-02-10"⟩, ⟨"r1", sampleLesson "2026-02-11"⟩,
          ⟨"r1", sampleLesson "2026-02-12"⟩, ⟨"r1", sampleLesson "2026-02-13"⟩,
          ⟨"r1", sampleLesson "2026-02-14"⟩, ⟨"r1", sampleLesson "2026-02-15"⟩,
          ⟨"r1", sampleLesson "2026-02-16"⟩, ⟨"r1", sampleLesson "2026-02-17"⟩,
          ⟨"r1", sampleLesson "2026-02-18"⟩, ⟨"r1", sampleLesson "2026-02-19"⟩,
          ⟨"r1", sampleLesson "2026-02-20"⟩, ⟨"r0", sampleLesson "2026-02-09"⟩],
        meta := some "r1", syncRuns := [], reminderLogs := [] }
      "2026-02-15").2 = some "2026-02-14" :=
  (cleanupOldLessons_retention
    { groups := [], teachers := [],
      lessons := [⟨"r1", sampleLesson "2026-02-10"⟩, ⟨"r1", sampleLesson "2026-02-11"⟩,
        ⟨"r1", sampleLesson "2026-02-12"⟩, ⟨"r1", sampleLesson "2026-02-13"⟩,
        ⟨"r1", sampleLesson "2026-02-14"⟩, ⟨"r1", sampleLesson "2026-02-15"⟩,
        ⟨"r1", sampleLesson "2026-02-16"⟩, ⟨"r1", sampleLesson "2026-02-17"⟩,
        ⟨"r1", sampleLesson "2026-02-18"⟩, ⟨"r1", sampleLesson "2026-02-19"⟩,
        ⟨"r1", sampleLesson "2026-02-20"⟩, ⟨"r0", sampleLesson "2026-02-09"⟩],
      meta := some "r1", syncRuns := [], reminderLogs := [] }
    "2026-02-15" "2026-02-14" "r1" rfl (by decide)).1

/-- C9: a getActiveLessons call with a non-empty group-name filter and no
groupCode filter never returns a lesson whose groupCode carries the synthetic
teacher-page prefix tp: — readers querying by group name never observe
teacher-scoped rows. -/
theorem getActiveLessons_group_filter_excludes_synthetic
    (db : ScheduleDB) (f : LessonFilters) (g : String)
    (hg : f.group = some g) (hne : g ≠ "") (hnc : f.groupCode = none) :
    ∀ d ∈ getActiveLessons db f, strStartsWith "tp:" d.doc.groupCode = false := by
  intro d hd
  unfold getActiveLessons at hd
  cases hmeta : db.meta with
  | none => rw [hmeta] at hd; cases hd
  | some a =>
    rw [hmeta] at hd
    rw [List.mem_filter] at hd
    have hq := hd.2
    unfold lessonMatchesQuery at hq
    have htg : truthyS f.group = true := by simp [truthyS, hg, hne]
    have htc : truthyS f.groupCode = false := by simp [truthyS, hnc]
    simp only [htg, htc, if_true, if_false, Bool.and_eq_true] at hq
    have h3 := hq.1.1.1.2
    simpa using h3

/-- Witness for C9: a database holding one real row and one synthetic tp: row
under the active run; the group-name query returns the real row, whose code
does not start with tp:. -/
theorem getActiveLessons_group_filter_excludes_synthetic_witness :
    strStartsWith "tp:"
      (⟨"r1", ⟨"238", some "СА-21", "2026-02-13", none, 2, 1, "s", none, none, "u"⟩⟩ :
        LessonDoc).doc.groupCode = false :=
  getActiveLessons_group_filter_excludes_synthetic
    { groups := [], teachers := [],
      lessons := [⟨"r1", ⟨"238", some "СА-21", "2026-02-13", none, 2, 1, "s", none, none, "u"⟩⟩,
        ⟨"r1", ⟨"tp:СА-21", some "СА-21", "2026-02-13", none, 3, 1, "s", none, none, "u"⟩⟩],
      meta := some "r1", syncRuns := [], reminderLogs := [] }
    { group := some "СА-21", groupCode := none, date := none, teacher := none, room := none }
    "СА-21" rfl (by decide) rfl
    ⟨"r1", ⟨"238", some "СА-21", "2026-02-13", none, 2, 1, "s", none, none, "u"⟩⟩
    (by decide)

theorem processCandidates_cons_mem {sendOk : String → Bool} {uid role : String}
    {d : Nat} {ledger : List String} {l : Lesson} {ls : List Lesson}
    (hmem : reminderKeyOf uid role d l ∈ ledger) :
    processCandidates sendOk uid role d ledger (l :: ls) =
      processCandidates sendOk uid role d ledger ls := by
  conv_lhs => unfold processCandidates
  dsimp only [registerReminderSend]
  rw [if_pos hmem]
  rfl

theorem processCandidates_cons_new {sendOk : String → Bool} {uid role : String}
    {d : Nat} {ledger : List String} {l : Lesson} {ls : List Lesson}
    (hmem : reminderKeyOf uid role d l ∉ ledger) :
    processCandidates sendOk uid role d ledger (l :: ls) =
      ((processCandidates sendOk uid role d (ledger ++ [reminderKeyOf uid role d l]) ls).1,
        reminderKeyOf uid role d l ::
          (processCandidates sendOk uid role d (ledger ++ [reminderKeyOf uid role d l]) ls).2.1,
        (if sendOk (reminderKeyOf uid role d l) then 1 else 0) +
          (processCandidates sendOk uid role d (ledger ++ [reminderKeyOf uid role d l]) ls).2.2) := by
  conv_lhs => unfold processCandidates
  dsimp only [registerReminderSend]
  rw [if_neg hmem]
  rfl

theorem processCandidates_spec (sendOk : String → Bool) (uid role : String)
    (d : Nat) : ∀ (cands : List Lesson) (ledger : List String),
    (processCandidates sendOk uid role d ledger cands).1 =
      ledger ++ (processCandidates sendOk uid role d ledger cands).2.1 ∧
    (processCandidates sendOk uid role d ledger cands).2.1.Nodup ∧
    (∀ k, k ∈ (processCandidates sendOk uid role d ledger cands).2.1 ↔
      (k ∈ cands.map (reminderKeyOf uid role d) ∧ k ∉ ledger)) := by
  intro cands
  induction cands with
  | nil =>
    intro ledger
    refine ⟨by simp [processCandidates], by simp [processCandidates], ?_⟩
    intro k
    simp [processCandidates]
  | cons l ls ih =>
    intro ledger
    by_cases hmem : reminderKeyOf uid role d l ∈ ledger
    · rw [processCandidates_cons_mem hmem]
      obtain ⟨h1, h2, h3⟩ := ih ledger
      refine ⟨h1, h2, ?_⟩
      intro k
      rw [h3 k]
      constructor
      · rintro ⟨hk, hnl⟩
        exact ⟨by rw [List.map_cons, List.mem_cons]; exact Or.inr hk, hnl⟩
      · rintro ⟨hk, hnl⟩
        rw [List.map_cons, List.mem_cons] at hk
        rcases hk with rfl | hk2
        · exact absurd hmem hnl
        · exact ⟨hk2, hnl⟩
    · rw [processCandidates_cons_new hmem]
      obtain ⟨h1, h2, h3⟩ := ih (ledger ++ [reminderKeyOf uid role d l])
      have hnotatt : reminderKeyOf uid role d l ∉
          (processCandidates sendOk uid role d (ledger ++ [reminderKeyOf uid role d l]) ls).2.1 := by
        intro hc
        have := (h3 _).mp hc
        exact this.2 (by simp)
      refine ⟨?_, ?_, ?_⟩
      · dsimp only
        rw [h1]
        simp
      · dsimp only
        exact List.Nodup.cons hnotatt h2
      · intro k
        dsimp only
        rw [List.mem_cons, h3 k]
        constructor
        · rintro (rfl | ⟨hk, hnl⟩)
          · exact ⟨by rw [List.map_cons, List.mem_cons]; exact Or.inl rfl, hmem⟩
          · refine ⟨by rw [List.map_cons, List.mem_cons]; exact Or.inr hk, ?_⟩
            intro hc
            exact hnl (by simp [hc])
        · rintro ⟨hk, hnl⟩
          rw [List.map_cons, List.mem_cons] at hk
          rcases hk with rfl | hk2
          · exact Or.inl rfl
          · by_cases hkey : k = reminderKeyOf uid role d l
            · exact Or.inl hkey
            · refine Or.inr ⟨hk2, ?_⟩
              simp [hnl, hkey]

theorem processCandidates_ledger_oracle_free (sendOk sendOk' : String → Bool)
    (uid role : String) (d : Nat) : ∀ (cands : List Lesson) (ledger : List String),
    (processCandidates sendOk uid role d ledger cands).1 =
      (processCandidates sendOk' uid role d ledger cands).1 ∧
    (processCandidates sendOk uid role d ledger cands).2.1 =
      (processCandidates sendOk' uid role d ledger cands).2.1 := by
  intro cands
  induction cands with
  | nil => intro ledger; exact ⟨rfl, rfl⟩
  | cons l ls ih =>
    intro ledger
    by_cases hmem : reminderKeyOf uid role d l ∈ ledger
    · rw [processCandidates_cons_mem hmem, processCandidates_cons_mem hmem]
      exact ih ledger
    · rw [processCandidates_cons_new hmem, processCandidates_cons_new hmem]
      obtain ⟨ha, hb⟩ := ih (ledger ++ [reminderKeyOf uid role d l])
      exact ⟨ha, by rw [hb]⟩

theorem processCandidates_all_ledgered (sendOk : String → Bool) (uid role : String)
    (d : Nat) : ∀ (cands : List Lesson) (ledger : List String),
    (∀ l ∈ cands, reminderKeyOf uid role d l ∈ ledger) →
    processCandidates sendOk uid role d ledger cands = (ledger, [], 0) := by
  intro cands
  induction cands with
  | nil => intro ledger _; rfl
  | cons l ls ih =>
    intro ledger hall
    rw [processCandidates_cons_mem (hall l (by simp))]
    exact ih ledger fun u hu => hall u (by simp [hu])

/-- C2: the dispatcher loop attempts a message send only for a composite key
userId|role|daysBefore|date|lessonNumber|subject|groupCode|teacher that was
newly inserted into the reminder ledger: a duplicate-key insert reports false
and the lesson is skipped, each key is attempted at most once even when the
same lesson appears twice in the tick, the inserted ledger entries persist
whatever the send outcomes are, a failed send is not retried, and a second
pass over the same candidates attempts nothing. -/
theorem processUserReminder_send_gating (sendOk : String → Bool) (uid role : String)
    (d : Nat) (ledger : List String) (cands : List Lesson) :
    (∀ (logs : List String) (k : String), k ∈ logs →
      registerReminderSend logs k = (logs, false)) ∧
    (∀ (logs : List String) (k : String), k ∉ logs →
      registerReminderSend logs k = (logs ++ [k], true)) ∧
    (processCandidates sendOk uid role d ledger cands).2.1.Nodup ∧
    (∀ k, k ∈ (processCandidates sendOk uid role d ledger cands).2.1 ↔
      (k ∈ cands.map (reminderKeyOf uid role d) ∧ k ∉ ledger)) ∧
    (processCandidates sendOk uid role d ledger cands).1 =
      ledger ++ (processCandidates sendOk uid role d ledger cands).2.1 ∧
    (∀ sendOk' : String → Bool,
      (processCandidates sendOk' uid role d ledger cands).1 =
        (processCandidates sendOk uid role d ledger cands).1 ∧
      (processCandidates sendOk' uid role d ledger cands).2.1 =
        (processCandidates sendOk uid role d ledger cands).2.1) ∧
    processCandidates sendOk uid role d
        (processCandidates sendOk uid role d ledger cands).1 cands =
      ((processCandidates sendOk uid role d ledger cands).1, [], 0) := by
  obtain ⟨h1, h2, h3⟩ := processCandidates_spec sendOk uid role d cands ledger
  refine ⟨?_, ?_, h2, h3, h1, ?_, ?_⟩
  · intro logs k hk
    simp [registerReminderSend, hk]
  · intro logs k hk
    simp [registerReminderSend, hk]
  · intro sendOk'
    exact processCandidates_ledger_oracle_free sendOk' sendOk uid role d cands ledger
  · apply processCandidates_all_ledgered
    intro l hl
    rw [h1]
    by_cases hin : reminderKeyOf uid role d l ∈ ledger
    · exact List.mem_append_left _ hin
    · apply List.mem_append_right
      rw [h3]
      exact ⟨List.mem_map_of_mem _ hl, hin⟩

/-- Witness for C2: a fresh insert reports true, the duplicate insert reports
false, and a second pass over a duplicated concrete candidate attempts no
send (with an always-failing messenger). -/
theorem processUserReminder_send_gating_witness :
    registerReminderSend [] "k0" = (["k0"], true) ∧
    registerReminderSend ["k0"] "k0" = (["k0"], false) ∧
    processCandidates (fun _ => false) "7" "student" 1
        (processCandidates (fun _ => false) "7" "student" 1 []
          [⟨"238", some "G", "2026-02-14", none, 2, 1, "Математика", none,
            some "Иванов А.Б.", "u"⟩,
           ⟨"238", some "G", "2026-02-14", none, 2, 1, "Математика", none,
            some "Иванов А.Б.", "u"⟩]).1
        [⟨"238", some "G", "2026-02-14", none, 2, 1, "Математика", none,
          some "Иванов А.Б.", "u"⟩,
         ⟨"238", some "G", "2026-02-14", none, 2, 1, "Математика", none,
          some "Иванов А.Б.", "u"⟩] =
      ((processCandidates (fun _ => false) "7" "student" 1 []
          [⟨"238", some "G", "2026-02-14", none, 2, 1, "Математика", none,
            some "Иванов А.Б.", "u"⟩,
           ⟨"238", some "G", "2026-02-14", none, 2, 1, "Математика", none,
            some "Иванов А.Б.", "u"⟩]).1, [], 0) := by
  have h := processUserReminder_send_gating (fun _ => false) "7" "student" 1 []
    [⟨"238", some "G", "2026-02-14", none, 2, 1, "Математика", none,
      some "Иванов А.Б.", "u"⟩,
     ⟨"238", some "G", "2026-02-14", none, 2, 1, "Математика", none,
      some "Иванов А.Б.", "u"⟩]
  exact ⟨h.2.1 [] "k0" (by decide), h.1 ["k0"] "k0" (by decide), h.2.2.2.2.2.2⟩

theorem setRunStatus_append_fresh (syncId trigger st : String) :
    ∀ runs : List RunDoc, (∀ r ∈ runs, r.syncId ≠ syncId) →
    setRunStatus syncId st (runs ++ [⟨syncId, trigger, "running"⟩]) =
      runs ++ [⟨syncId, trigger, st⟩] := by
  intro runs
  induction runs with
  | nil => intro _; simp [setRunStatus]
  | cons r rest ih =>
    intro hfresh
    have hr : r.syncId ≠ syncId := hfresh r (by simp)
    simp only [List.cons_append, setRunStatus, if_neg hr, List.append_eq]
    rw [ih fun u hu => hfresh u (by simp [hu])]

theorem find_append_fresh (syncId : String) (r0 : RunDoc) (h0 : r0.syncId = syncId) :
    ∀ runs : List RunDoc, (∀ r ∈ runs, r.syncId ≠ syncId) →
    (runs ++ [r0]).find? (fun r => r.syncId = syncId) = some r0 := by
  intro runs
  induction runs with
  | nil => intro _; simp [List.find?, h0]
  | cons r rest ih =>
    intro hfresh
    have hr : r.syncId ≠ syncId := hfresh r (by simp)
    simp only [List.cons_append, List.find?]
    rw [decide_eq_false hr]
    exact ih fun u hu => hfresh u (by simp [hu])

theorem insertLessons_filter_fresh (a syncId : String) (hne : a ≠ syncId)
    (f : LessonFilters) : ∀ (ls : List Lesson) (docs : List LessonDoc),
    (insertLessons syncId ls docs).filter (lessonMatchesQuery a f) =
      docs.filter (lessonMatchesQuery a f) := by
  intro ls
  induction ls with
  | nil => intro docs; rfl
  | cons l rest ih =>
    intro docs
    have hstep : insertLessons syncId (l :: rest) docs =
        insertLessons syncId rest (insertLessonIfAbsent syncId l docs) := rfl
    rw [hstep, ih]
    unfold insertLessonIfAbsent
    by_cases hdup : docs.any (fun d => sameLessonNatKey d.syncId d.doc syncId l)
    · rw [if_pos hdup]
    · rw [if_neg hdup, List.filter_append]
      have : lessonMatchesQuery a f ⟨syncId, l⟩ = false := by
        unfold lessonMatchesQuery
        have : (⟨syncId, l⟩ : LessonDoc).syncId ≠ a := fun h => hne h.symm
        simp [this]
      simp [List.filter, this]

/-- C1 counterexample: a run that fails between the teacher upserts and the
lesson writes leaves the active pointer untouched, yet the group-roster read
changes — the in-place upsert moved the group's lastSeenSyncId to the failed
run, so the previously active snapshot does not keep serving all reads. -/
theorem syncRun_failure_reads_counterexample :
    (syncRunModel
        { groups := [⟨"238", "СА-21", "r0"⟩], teachers := [],
          lessons := [⟨"r0", sampleLesson "2026-02-13"⟩], meta := some "r0",
          syncRuns := [], reminderLogs := [] }
        "r1" "manual" "2026-02-15" ⟨[⟨"238", "СА-21"⟩], [], []⟩
        (some SyncFailPoint.duringSaveLessons)).meta = some "r0" ∧
    getActiveGroups
        { groups := [⟨"238", "СА-21", "r0"⟩], teachers := [],
          lessons := [⟨"r0", sampleLesson "2026-02-13"⟩], meta := some "r0",
          syncRuns := [], reminderLogs := [] } = [⟨"238", "СА-21", "r0"⟩] ∧
    getActiveGroups
        (syncRunModel
          { groups := [⟨"238", "СА-21", "r0"⟩], teachers := [],
            lessons := [⟨"r0", sampleLesson "2026-02-13"⟩], meta := some "r0",
            syncRuns := [], reminderLogs := [] }
          "r1" "manual" "2026-02-15" ⟨[⟨"238", "СА-21"⟩], [], []⟩
          (some SyncFailPoint.duringSaveLessons)) = [] := by decide

/-- C1 amended: a run failing anywhere before promotion (fetch, any snapshot
bulk write, or the pointer write itself) leaves activeSyncId untouched,
records the run as failed, and leaves every getActiveLessons read unchanged;
roster reads through getActiveGroups and getActiveTeachers are also unchanged
when the failure precedes the snapshot writes, but a failure after the group
or teacher upserts can hide previously active roster entries even though the
pointer is intact; on the success path the pointer is written (set to the
run's id) only by saveSnapshot after all group, teacher and lesson writes. -/
theorem syncRun_failure_pointer_intact (db : ScheduleDB)
    (syncId trigger today : String) (data : ScrapeData) (fp : SyncFailPoint)
    (hfresh : ∀ r ∈ db.syncRuns, r.syncId ≠ syncId)
    (hactive : db.meta ≠ some syncId) :
    (syncRunModel db syncId trigger today data (some fp)).meta = db.meta ∧
    runStatus (syncRunModel db syncId trigger today data (some fp)) syncId =
      some "failed" ∧
    (∀ f : LessonFilters,
      getActiveLessons (syncRunModel db syncId trigger today data (some fp)) f =
        getActiveLessons db f) ∧
    (fp = SyncFailPoint.duringFetch ∨ fp = SyncFailPoint.duringSaveGroups →
      getActiveGroups (syncRunModel db syncId trigger today data (some fp)) =
          getActiveGroups db ∧
      getActiveTeachersQuery (syncRunModel db syncId trigger today data (some fp)) =
          getActiveTeachersQuery db) ∧
    (syncRunModel db syncId trigger today data none).meta = some syncId := by
  have hmeta : (syncRunModel db syncId trigger today data (some fp)).meta = db.meta := by
    cases fp <;> rfl
  refine ⟨hmeta, ?_, ?_, ?_, ?_⟩
  · have hruns : (syncRunModel db syncId trigger today data (some fp)).syncRuns =
        setRunStatus syncId "failed"
          (db.syncRuns ++ [⟨syncId, trigger, "running"⟩]) := by
      cases fp <;> rfl
    unfold runStatus
    rw [hruns, setRunStatus_append_fresh syncId trigger "failed" db.syncRuns hfresh,
      find_append_fresh syncId ⟨syncId, trigger, "failed"⟩ rfl db.syncRuns hfresh]
    rfl
  · intro f
    unfold getActiveLessons
    rw [hmeta]
    cases hm : db.meta with
    | none => rfl
    | some a =>
      have hlessons : (syncRunModel db syncId trigger today data (some fp)).lessons =
          db.lessons ∨
          (syncRunModel db syncId trigger today data (some fp)).lessons =
            insertLessons syncId data.lessons db.lessons := by
        cases fp
        · exact Or.inl rfl
        · exact Or.inl rfl
        · exact Or.inl rfl
        · exact Or.inl rfl
        · exact Or.inr rfl
      have hane : a ≠ syncId := by
        intro h
        exact hactive (by rw [hm, h])
      rcases hlessons with h | h
      · rw [h]
      · rw [h]
        dsimp only
        rw [insertLessons_filter_fresh a syncId hane f]
  · rintro (rfl | rfl) <;> exact ⟨rfl, rfl⟩
  · show (finishSyncRun ((cleanupOldLessons _ today).1) syncId "success").meta = some syncId
    unfold cleanupOldLessons
    cases hs : shiftIsoDate today (-1) <;> rfl

/-- Witness for C1: a fresh run id failing during fetch against a database
serving run r0 keeps the pointer at r0 and records the run as failed. -/
theorem syncRun_failure_pointer_intact_witness :
    (syncRunModel
        { groups := [⟨"238", "СА-21", "r0"⟩], teachers := [],
          lessons := [⟨"r0", sampleLesson "2026-02-13"⟩], meta := some "r0",
          syncRuns := [], reminderLogs := [] }
        "r1" "manual" "2026-02-15" ⟨[⟨"238", "СА-21"⟩], [], []⟩
        (some SyncFailPoint.duringFetch)).meta = some "r0" ∧
    runStatus
        (syncRunModel
          { groups := [⟨"238", "СА-21", "r0"⟩], teachers := [],
            lessons := [⟨"r0", sampleLesson "2026-02-13"⟩], meta := some "r0",
            syncRuns := [], reminderLogs := [] }
          "r1" "manual" "2026-02-15" ⟨[⟨"238", "СА-21"⟩], [], []⟩
          (some SyncFailPoint.duringFetch)) "r1" = some "failed" := by
  have h := syncRun_failure_pointer_intact
    { groups := [⟨"238", "СА-21", "r0"⟩], teachers := [],
      lessons := [⟨"r0", sampleLesson "2026-02-13"⟩], meta := some "r0",
      syncRuns := [], reminderLogs := [] }
    "r1" "manual" "2026-02-15" ⟨[⟨"238", "СА-21"⟩], [], []⟩
    SyncFailPoint.duringFetch (by simp) (by decide)
  exact ⟨h.1, h.2.1⟩
